import Mathlib

/-!
Verification of the scraping/normalization pipeline of `server/scraper.py`
(sac-music-scene).  Python functions are shallowly embedded as executable
Lean definitions over `List Char` / `String`, `Option`, `Except` and `ℚ`:

* strings are manipulated through their character lists;
* Python `None` becomes `Option.none`; code that can raise becomes `Except`;
* numeric prices are modelled as rationals (ordering of decimal literals is
  the same as for Python floats at every comparison the code performs);
* network fetches and HTML parsing (httpx / BeautifulSoup) are external
  collaborators: a page is represented by the data the code reads off the
  parsed soup, and `_fetch` becomes an explicit `String → Option PageData`
  argument.
-/

namespace SacScene

/-! ## Basic character/string helpers -/

/-- Whitespace as recognised by Python's `str.strip()` / `\s` on the
characters that occur in practice (ASCII whitespace plus NBSP). -/
def wsChar (c : Char) : Bool :=
  c = ' ' || c = '\t' || c = '\n' || c = '\r' || c = '\x0b' || c = '\x0c' || c = '\xa0'

/-- Python `str.strip()` (no arguments): strip whitespace from both ends. -/
def stripWsL (l : List Char) : List Char :=
  ((l.dropWhile wsChar).reverse.dropWhile wsChar).reverse

/-- Python `str.strip(chars)`: strip any of the given characters from both ends. -/
def stripSetL (cs : List Char) (l : List Char) : List Char :=
  ((l.dropWhile (cs.contains ·)).reverse.dropWhile (cs.contains ·)).reverse

/-- Python `str.rstrip(chars)` for a single character set. -/
def rstripL (cs : List Char) (l : List Char) : List Char :=
  (l.reverse.dropWhile (cs.contains ·)).reverse

/-- Leftmost split on a separator: Python `s.split(sep, 1)` when `sep` occurs.
Returns the part before the first occurrence and the part after it. -/
def splitFirstL (sep : List Char) : List Char → Option (List Char × List Char)
  | [] => none
  | c :: rest =>
    if sep.isPrefixOf (c :: rest) then
      some ([], (c :: rest).drop sep.length)
    else
      (splitFirstL sep rest).map (fun p => (c :: p.1, p.2))

/-- Python `sub in s` (substring containment). -/
def containsSub (sub : List Char) : List Char → Bool
  | [] => sub.isEmpty
  | c :: rest => sub.isPrefixOf (c :: rest) || containsSub sub rest

/-- Helper for `collapseWsL`: the flag records whether the previous character
belonged to a whitespace run already emitted as a single space. -/
def collapseGo : Bool → List Char → List Char
  | _, [] => []
  | prevWs, c :: rest =>
    if wsChar c then
      if prevWs then collapseGo true rest else ' ' :: collapseGo true rest
    else c :: collapseGo false rest

/-- Collapse every whitespace run into a single space: `re.sub(r"\s+", " ", s)`. -/
def collapseWsL (l : List Char) : List Char := collapseGo false l

def toLowerL (l : List Char) : List Char := l.map Char.toLower

/-- Case-insensitive literal prefix test (ASCII). -/
def ciIsPrefix : List Char → List Char → Bool
  | [], _ => true
  | _ :: _, [] => false
  | p :: ps, c :: cs => p.toLower = c.toLower && ciIsPrefix ps cs

/-! ## html.unescape model

`html.unescape` from the Python standard library (an external collaborator of
`_clean_event_name`).  We model the scanning behaviour exactly — entity
replacement can only happen at a `&` — with a representative table of the
common entities; on inputs without `&` (the only inputs any theorem below
evaluates it on) the model agrees with the library exactly. -/

def entityTable : List (List Char × List Char) :=
  [("amp;".data, "&".data), ("#038;".data, "&".data), ("#39;".data, "'".data),
   ("lt;".data, "<".data), ("gt;".data, ">".data), ("quot;".data, "\"".data),
   ("apos;".data, "'".data), ("nbsp;".data, "\xa0".data)]

/-- Find an entity name following a `&`; returns the replacement and the
number of characters consumed. -/
def findEntity (l : List Char) : Option (List Char × Nat) :=
  (entityTable.find? (fun p => p.1.isPrefixOf l)).map (fun p => (p.2, p.1.length))

def unescapeGo : Nat → List Char → List Char
  | 0, l => l
  | _ + 1, [] => []
  | fuel + 1, '&' :: rest =>
    match findEntity rest with
    | some (repl, n) => repl ++ unescapeGo fuel (rest.drop n)
    | none => '&' :: unescapeGo fuel rest
  | fuel + 1, c :: rest => c :: unescapeGo fuel rest

/-- Model of Python `html.unescape`. -/
def unescapeL (l : List Char) : List Char := unescapeGo (l.length + 1) l

/-! ## Static data: generic titles (`GENERIC_EVENT_TITLES`, `GENERIC_TITLE_SUBSTRINGS`) -/

def GENERIC_EVENT_TITLES : List String :=
  ["events", "shows", "calendar", "the boardwalk", "harlow's", "harlows",
   "the starlet room", "old ironsides", "goldfield trading post",
   "ace of spades", "channel 24", "upcoming events",
   "find the latest shows near you"]

def GENERIC_TITLE_SUBSTRINGS : List String :=
  ["find the latest shows near you", "discover upcoming events"]

/-! ## `_clean_event_name` -/

/-- The anchored prefix strip `re.sub(r"^\s*events?\s*-\s*", "", text, IGNORECASE)`:
optional whitespace, `event`, optional `s`, optional whitespace, `-`, optional
whitespace, removed from the front when the whole pattern matches. -/
def stripLeadingEvents (l : List Char) : List Char :=
  let rest0 := l.dropWhile wsChar
  if ciIsPrefix "event".data rest0 then
    let r1 := rest0.drop 5
    let tryTail : List Char → Option (List Char) := fun r =>
      match r.dropWhile wsChar with
      | '-' :: r2 => some (r2.dropWhile wsChar)
      | _ => none
    let withS : Option (List Char) :=
      match r1 with
      | c :: r2 => if c.toLower = 's' then tryTail r2 else none
      | [] => none
    match withS with
    | some res => res
    | none => match tryTail r1 with
      | some res => res
      | none => l
  else l

/-- Embedding of `_clean_event_name` on character lists. -/
def cleanL (l : List Char) : List Char :=
  let t := unescapeL (stripWsL l)
  if t = [] then []
  else
    let t := stripLeadingEvents t
    let t := stripSetL [' ', '-', '|'] (collapseWsL t)
    let t := match splitFirstL " | ".data t with
      | some p => stripWsL p.1
      | none => t
    let t := match splitFirstL " - ".data t with
      | some p =>
        if GENERIC_EVENT_TITLES.contains (String.mk (toLowerL (stripWsL p.2))) then
          stripWsL p.1
        else t
      | none => t
    t

/-- `_clean_event_name` on strings (`None` becomes the empty string before the
call in every Python call site that passes an optional). -/
def cleanEventName (s : String) : String := String.mk (cleanL s.data)

/-- `_is_generic_title`. -/
def isGenericTitle (s : String) : Bool :=
  let cleaned := String.mk (stripWsL (toLowerL (cleanL s.data)))
  cleaned = "" || GENERIC_EVENT_TITLES.contains cleaned ||
    GENERIC_TITLE_SUBSTRINGS.any (fun tok => containsSub tok.data cleaned.data)

/-! ## `_canonicalize_url` -/

/-- `value.split("#", 1)[0].split("?", 1)[0].rstrip("/")` (the string case of
`_canonicalize_url`; on a falsy value the function returns it unchanged, which
for strings coincides with this computation at `""`). -/
def canonicalizeStr (s : String) : String :=
  String.mk (rstripL ['/'] ((s.data.takeWhile (· ≠ '#')).takeWhile (· ≠ '?')))

/-- `_canonicalize_url` on an optional string. -/
def canonicalizeUrl : Option String → Option String
  | none => none
  | some s => some (canonicalizeStr s)

/-! ## Claim C3: idempotence of `_clean_event_name` -/

/-- The once-cleaned value is left unchanged by each individual stage of
`_clean_event_name`: unescape+strip, the anchored `events?-` prefix strip,
whitespace collapse and boundary `-`/`|` strip, the `" | "` split, and the
generic-suffix `" - "` split. -/
def dashRightGeneric (y : String) : Bool :=
  match splitFirstL " - ".data y.data with
  | some p => GENERIC_EVENT_TITLES.contains (String.mk (toLowerL (stripWsL p.2)))
  | none => false

def cleanStagesFix (y : String) : Prop :=
  unescapeL (stripWsL y.data) = y.data ∧
  stripLeadingEvents y.data = y.data ∧
  stripSetL [' ', '-', '|'] (collapseWsL y.data) = y.data ∧
  splitFirstL " | ".data y.data = none ∧
  dashRightGeneric y = false

/-! ## MD5 and `_build_id`

`_build_id` hashes `f"{source}|{url or ''}|{name}|{date or ''}"` with MD5 and
returns the lowercase hex digest.  MD5 (from `hashlib`) is implemented here
over byte lists with 32-bit arithmetic done in `Nat` modulo `2^32`. -/

def M32 : Nat := 4294967296

def m32 (x : Nat) : Nat := x % M32

/-- Bitwise complement on 32-bit values represented as `Nat < 2^32`. -/
def bnot32 (x : Nat) : Nat := 4294967295 - x

/-- Left-rotation of a 32-bit value: the two shifted parts occupy disjoint
bit ranges, so their sum is their bitwise or. -/
def rotl32 (x s : Nat) : Nat := m32 (x * 2 ^ s) + x / 2 ^ (32 - s)

def md5K : List Nat :=
  [0xd76aa478, 0xe8c7b756, 0x242070db, 0xc1bdceee, 0xf57c0faf, 0x4787c62a, 0xa8304613, 0xfd469501,
   0x698098d8, 0x8b44f7af, 0xffff5bb1, 0x895cd7be, 0x6b901122, 0xfd987193, 0xa679438e, 0x49b40821,
   0xf61e2562, 0xc040b340, 0x265e5a51, 0xe9b6c7aa, 0xd62f105d, 0x02441453, 0xd8a1e681, 0xe7d3fbc8,
   0x21e1cde6, 0xc33707d6, 0xf4d50d87, 0x455a14ed, 0xa9e3e905, 0xfcefa3f8, 0x676f02d9, 0x8d2a4c8a,
   0xfffa3942, 0x8771f681, 0x6d9d6122, 0xfde5380c, 0xa4beea44, 0x4bdecfa9, 0xf6bb4b60, 0xbebfbc70,
   0x289b7ec6, 0xeaa127fa, 0xd4ef3085, 0x04881d05, 0xd9d4d039, 0xe6db99e5, 0x1fa27cf8, 0xc4ac5665,
   0xf4292244, 0x432aff97, 0xab9423a7, 0xfc93a039, 0x655b59c3, 0x8f0ccc92, 0xffeff47d, 0x85845dd1,
   0x6fa87e4f, 0xfe2ce6e0, 0xa3014314, 0x4e0811a1, 0xf7537e82, 0xbd3af235, 0x2ad7d2bb, 0xeb86d391]

def md5S : List Nat :=
  [7, 12, 17, 22, 7, 12, 17, 22, 7, 12, 17, 22, 7, 12, 17, 22,
   5, 9, 14, 20, 5, 9, 14, 20, 5, 9, 14, 20, 5, 9, 14, 20,
   4, 11, 16, 23, 4, 11, 16, 23, 4, 11, 16, 23, 4, 11, 16, 23,
   6, 10, 15, 21, 6, 10, 15, 21, 6, 10, 15, 21, 6, 10, 15, 21]

/-- UTF-8 encoding of one character (as byte values). -/
def utf8Char (c : Char) : List Nat :=
  let n := c.toNat
  if n < 0x80 then [n]
  else if n < 0x800 then [0xC0 + n / 64, 0x80 + n % 64]
  else if n < 0x10000 then [0xE0 + n / 4096, 0x80 + n / 64 % 64, 0x80 + n % 64]
  else [0xF0 + n / 262144, 0x80 + n / 4096 % 64, 0x80 + n / 64 % 64, 0x80 + n % 64]

def utf8Bytes (s : String) : List Nat := (s.data.map utf8Char).flatten

/-- `k` little-endian bytes of `n`. -/
def leBytes : Nat → Nat → List Nat
  | 0, _ => []
  | k + 1, n => n % 256 :: leBytes k (n / 256)

/-- MD5 padding: `0x80`, zeros to 56 mod 64, then the 64-bit little-endian
bit length. -/
def md5Pad (msg : List Nat) : List Nat :=
  let len := msg.length
  let z := (119 - len % 64) % 64
  msg ++ 0x80 :: List.replicate z 0 ++ leBytes 8 (len * 8 % 2 ^ 64)

def chunksGo : Nat → List Nat → List (List Nat)
  | _, [] => []
  | 0, l => [l]
  | fuel + 1, l => l.take 64 :: chunksGo fuel (l.drop 64)

/-- 16 little-endian 32-bit words of a 64-byte block. -/
def toWords : List Nat → List Nat
  | b0 :: b1 :: b2 :: b3 :: rest =>
    (b0 + 256 * b1 + 65536 * b2 + 16777216 * b3) :: toWords rest
  | _ => []

/-- One of the 64 MD5 operations.  In rounds 1 and 2 the two masked terms are
bitwise disjoint, so `+` computes their bitwise or. -/
def md5Step (m : List Nat) (st : Nat × Nat × Nat × Nat) (i : Nat) :
    Nat × Nat × Nat × Nat :=
  let a := st.1; let b := st.2.1; let c := st.2.2.1; let d := st.2.2.2
  let fg : Nat × Nat :=
    if i < 16 then ((b &&& c) + (bnot32 b &&& d), i)
    else if i < 32 then ((d &&& b) + (bnot32 d &&& c), (5 * i + 1) % 16)
    else if i < 48 then (b ^^^ c ^^^ d, (3 * i + 5) % 16)
    else (c ^^^ (b ||| bnot32 d), 7 * i % 16)
  let f2 := m32 (fg.1 + a + md5K.getD i 0 + m.getD fg.2 0)
  (d, m32 (b + rotl32 f2 (md5S.getD i 0)), b, c)

def md5Block (st : Nat × Nat × Nat × Nat) (block : List Nat) :
    Nat × Nat × Nat × Nat :=
  let m := toWords block
  let r := (List.range 64).foldl (md5Step m) st
  (m32 (st.1 + r.1), m32 (st.2.1 + r.2.1), m32 (st.2.2.1 + r.2.2.1),
   m32 (st.2.2.2 + r.2.2.2))

def hexDigit (n : Nat) : Char := if n < 10 then Char.ofNat (48 + n) else Char.ofNat (87 + n)

def hexOfBytes (bytes : List Nat) : List Char :=
  (bytes.map (fun b => [hexDigit (b / 16), hexDigit (b % 16)])).flatten

/-- MD5 lowercase hex digest of a byte list. -/
def md5hexBytes (msg : List Nat) : String :=
  let padded := md5Pad msg
  let r := (chunksGo padded.length padded).foldl md5Block
    (0x67452301, 0xefcdab89, 0x98badcfe, 0x10325476)
  String.mk (hexOfBytes
    (leBytes 4 r.1 ++ leBytes 4 r.2.1 ++ leBytes 4 r.2.2.1 ++ leBytes 4 r.2.2.2))

def md5hex (s : String) : String := md5hexBytes (utf8Bytes s)

/-- `_build_id`: MD5 of `f"{source}|{url or ''}|{name}|{date or ''}"`. -/
def buildId (source : String) (url : Option String) (name : String)
    (date : Option String) : String :=
  md5hex (source ++ "|" ++ url.getD "" ++ "|" ++ name ++ "|" ++ date.getD "")

/-! ## Python JSON values

Values decoded by `json.loads` (and the loosely-typed fields of manual-event
records).  Python `bool` is kept separate from numbers, but the embeddings
below treat it as numeric wherever the code's `isinstance(v, (int, float))`
does.  Numbers are modelled as rationals. -/

inductive PyVal where
  | none : PyVal
  | bool : Bool → PyVal
  | num : ℚ → PyVal
  | str : String → PyVal
  | list : List PyVal → PyVal
  | dict : List (String × PyVal) → PyVal

/-- Python truthiness `bool(v)` on JSON values. -/
def pyTruthy : PyVal → Bool
  | .none => false
  | .bool b => b
  | .num q => decide (q ≠ 0)
  | .str s => decide (s ≠ "")
  | .list xs => !xs.isEmpty
  | .dict kvs => !kvs.isEmpty

/-- `d.get(k)` on a dict value (`None` when absent or when the value is not
a dict). -/
def pyGet (v : PyVal) (k : String) : PyVal :=
  match v with
  | .dict kvs => ((kvs.find? (fun p => p.1 == k)).map (·.2)).getD .none
  | _ => .none

def PyVal.isDict : PyVal → Bool
  | .dict _ => true
  | _ => false

/-- Modelling boundary for fields the code stores verbatim into an Event slot
that in practice holds a string: `.str` maps to `some`, anything else to
`none`.  Theorems about the manual loader restrict these fields to strings or
`None` via `pyStrOrNone` hypotheses. -/
def asOptStr : PyVal → Option String
  | .str s => some s
  | _ => Option.none

/-- Modelling boundary for the numeric `priceMin`/`priceMax` manual fields. -/
def asOptNum : PyVal → Option ℚ
  | .num q => some q
  | _ => Option.none

def pyStrOrNone : PyVal → Bool
  | .str _ => true
  | .none => true
  | _ => false

def pyNumOrNone : PyVal → Bool
  | .num _ => true
  | .none => true
  | _ => false

/-! ## `_parse_price` and structured price extraction -/

def digitsVal (l : List Char) : Nat := l.foldl (fun a c => 10 * a + (c.toNat - 48)) 0

def ratOfDigits (ip fp : List Char) : ℚ :=
  (digitsVal ip : ℚ) + (digitsVal fp : ℚ) / (10 : ℚ) ^ fp.length

/-- `re.findall(r"\d+(?:\.\d+)?", s)` converted to numbers: maximal digit runs
with an optional fractional part, scanned left to right, non-overlapping. -/
def numTokensGo : Nat → List Char → List ℚ
  | 0, _ => []
  | _ + 1, [] => []
  | fuel + 1, c :: rest =>
    if c.isDigit then
      let ds := (c :: rest).takeWhile Char.isDigit
      let rest1 := (c :: rest).dropWhile Char.isDigit
      match rest1 with
      | '.' :: r2 =>
        let fs := r2.takeWhile Char.isDigit
        if fs.isEmpty then ratOfDigits ds [] :: numTokensGo fuel r2
        else ratOfDigits ds fs :: numTokensGo fuel (r2.dropWhile Char.isDigit)
      | _ => ratOfDigits ds [] :: numTokensGo fuel rest1
    else numTokensGo fuel rest

def numTokens (l : List Char) : List ℚ := numTokensGo (l.length + 1) l

/-- All numeric tokens of a string after `".replace(',', '')"`. -/
def numbersIn (s : String) : List ℚ := numTokens (s.data.filter (· ≠ ','))

def listMin : List ℚ → Option ℚ
  | [] => Option.none
  | x :: xs => some (xs.foldl min x)

def listMax : List ℚ → Option ℚ
  | [] => Option.none
  | x :: xs => some (xs.foldl max x)

/-- `_parse_price`: numbers (and bools, via `isinstance(v, (int, float))`)
pass through as both bounds; strings yield the min/max of their numeric
tokens; anything else gives `(None, None)`. -/
def parsePrice : PyVal → Option ℚ × Option ℚ
  | .num q => (some q, some q)
  | .bool b => (some (if b then 1 else 0), some (if b then 1 else 0))
  | .str s =>
    match numbersIn s with
    | [] => (Option.none, Option.none)
    | x :: xs => ((x :: xs).foldl (fun a q => min a q) x |> some,
                  (x :: xs).foldl (fun a q => max a q) x |> some)
  | _ => (Option.none, Option.none)

/-- One offer value under the `price`/`lowPrice`/`highPrice` keys of
`_extract_prices_from_jsonld`: numerics within `(0, 1000]`, or every in-range
numeric token of a string. -/
def priceVals : PyVal → List ℚ
  | .num q => if 0 < q ∧ q ≤ 1000 then [q] else []
  | .bool b =>
    let q : ℚ := if b then 1 else 0
    if 0 < q ∧ q ≤ 1000 then [q] else []
  | .str s => (numbersIn s).filter (fun q => decide (0 < q) && decide (q ≤ 1000))
  | _ => []

/-- `_extract_prices_from_jsonld`. -/
def extractPricesFromJsonld (items : List PyVal) : List ℚ :=
  (items.map (fun item =>
    match item with
    | .dict _ =>
      let offers := pyGet item "offers"
      let offerItems : List PyVal :=
        match offers with
        | .list xs => xs
        | .dict kvs => [.dict kvs]
        | _ => []
      (offerItems.map (fun offer =>
        match offer with
        | .dict _ =>
          (["price", "lowPrice", "highPrice"].map
            (fun k => priceVals (pyGet offer k))).flatten
        | _ => [])).flatten
    | _ => [])).flatten

/-! ## `_parse_jsonld` and `_extract_event_from_jsonld`

Each `<script type="application/ld+json">` block appears as the result of
`json.loads` on its text: `none` when parsing raised (the block is skipped). -/

def parseJsonld (scripts : List (Option PyVal)) : List PyVal :=
  (scripts.map (fun s =>
    match s with
    | Option.none => []
    | some data =>
      let entries : List PyVal :=
        match data with
        | .dict kvs => [.dict kvs]
        | .list xs => xs
        | _ => []
      (entries.map (fun entry =>
        match entry with
        | .dict _ =>
          match pyGet entry "@graph" with
          | .list g => g
          | _ => [entry]
        | _ => [entry])).flatten)).flatten

/-- `@type`, unwrapping a list to its first element (`None` when empty). -/
def typeOf (item : PyVal) : PyVal :=
  match pyGet item "@type" with
  | .list xs => xs.headD .none
  | v => v

def isEventType : PyVal → Bool
  | .str s => s == "Event" || s == "MusicEvent"
  | _ => false

/-- The candidate score of `_extract_event_from_jsonld` (presence means
Python truthiness of the field). -/
def candidateScore (c : PyVal) : Nat :=
  (if pyTruthy (pyGet c "startDate") then 4 else 0) +
  (if pyTruthy (pyGet c "offers") then 2 else 0) +
  (if pyTruthy (pyGet c "location") then 1 else 0) +
  (if pyTruthy (pyGet c "url") then 1 else 0) +
  (if pyTruthy (pyGet c "image") then 1 else 0)

/-- Python `max(candidates, key=score)`: first candidate with the maximal
score. -/
def maxByScore (l : List PyVal) : Option PyVal :=
  l.foldl (fun best c =>
    match best with
    | Option.none => some c
    | some b => if candidateScore c > candidateScore b then some c else some b)
    Option.none

/-- `_extract_event_from_jsonld`. -/
def extractEventFromJsonld (items : List PyVal) : Option PyVal :=
  maxByScore (items.filter (fun item => item.isDict && isEventType (typeOf item)))

/-! ## Regex scanning helpers for `_extract_datetime_from_text`

The three patterns of `_extract_datetime_from_text` are implemented directly
with Python `re` search semantics: leftmost position first, alternatives in
source order, greedy quantifiers with backtracking where the pattern needs
it. -/

def isWordChar (c : Char) : Bool := c.isAlphanum || c = '_'

def charAt (l : List Char) (i : Nat) : Option Char := l.get? i

def isWordAt (l : List Char) (i : Nat) : Bool :=
  match charAt l i with
  | some c => isWordChar c
  | Option.none => false

/-- `\b` at position `i`. -/
def wordBoundary (l : List Char) (i : Nat) : Bool :=
  let left := if i = 0 then false else isWordAt l (i - 1)
  left != isWordAt l i

def isDigitAt (l : List Char) (i : Nat) : Bool :=
  match charAt l i with
  | some c => c.isDigit
  | Option.none => false

def digitValAt (l : List Char) (i : Nat) : Nat :=
  match charAt l i with
  | some c => c.toNat - 48
  | Option.none => 0

/-- Length of the run of characters satisfying `p` starting at `i`. -/
def runLenGo (p : Char → Bool) (l : List Char) : Nat → Nat → Nat
  | 0, _ => 0
  | fuel + 1, i =>
    match charAt l i with
    | some c => if p c then runLenGo p l fuel (i + 1) + 1 else 0
    | Option.none => 0

def runLen (p : Char → Bool) (l : List Char) (i : Nat) : Nat :=
  runLenGo p l (l.length + 1) i

/-- Try a position-indexed matcher at `start, start+1, …` (leftmost match). -/
def scanPositions {α : Type} (f : Nat → Option α) : Nat → Nat → Option α
  | 0, _ => Option.none
  | fuel + 1, i =>
    match f i with
    | some r => some r
    | Option.none => scanPositions f fuel (i + 1)

def ciCharIs (l : List Char) (i : Nat) (c : Char) : Bool :=
  match charAt l i with
  | some x => x.toLower = c
  | Option.none => false

/-! ### The time pattern `\b(\d{1,2})(?::(\d{2}))?\s*([ap]m)\b` (IGNORECASE) -/

/-- After the optional minute group: `\s*`, `[ap]m`, `\b`.  Returns the
meridiem (`true` = pm). -/
def timeTail (l : List Char) (j : Nat) : Option Bool :=
  let k := j + runLen wsChar l j
  if (ciCharIs l k 'a' || ciCharIs l k 'p') && ciCharIs l (k + 1) 'm' &&
      wordBoundary l (k + 2) then
    some (ciCharIs l k 'p')
  else Option.none

/-- The optional `(?::(\d{2}))?` group followed by the tail, with the
greedy-first backtracking of the regex. -/
def timeAfterHour (l : List Char) (hour : Nat) (j : Nat) :
    Option (Nat × Nat × Bool) :=
  let withColon : Option (Nat × Nat × Bool) :=
    if ciCharIs l j ':' && isDigitAt l (j + 1) && isDigitAt l (j + 2) then
      match timeTail l (j + 3) with
      | some pm => some (hour, 10 * digitValAt l (j + 1) + digitValAt l (j + 2), pm)
      | Option.none => Option.none
    else Option.none
  match withColon with
  | some r => some r
  | Option.none =>
    match timeTail l j with
    | some pm => some (hour, 0, pm)
    | Option.none => Option.none

def timeMatchAt (l : List Char) (i : Nat) : Option (Nat × Nat × Bool) :=
  if wordBoundary l i && isDigitAt l i then
    let two : Option (Nat × Nat × Bool) :=
      if isDigitAt l (i + 1) then
        timeAfterHour l (10 * digitValAt l i + digitValAt l (i + 1)) (i + 2)
      else Option.none
    match two with
    | some r => some r
    | Option.none => timeAfterHour l (digitValAt l i) (i + 1)
  else Option.none

/-- `re.search` of the time pattern: hour, minute (0 when the group is
absent), and whether the meridiem is `pm`. -/
def timeSearch (l : List Char) : Option (Nat × Nat × Bool) :=
  scanPositions (timeMatchAt l) (l.length + 1) 0

/-! ### The numeric date pattern: `20\d{2}`, a dash-or-slash separator,
`\d{1,2}`, separator, `\d{1,2}`, with word boundaries at both ends -/

def isDateSepAt (l : List Char) (i : Nat) : Bool :=
  match charAt l i with
  | some c => c = '-' || c = '/'
  | Option.none => false

/-- day part `(\d{1,2})\b` starting at `j` (greedy, with backtracking). -/
def dayNumAt (l : List Char) (j : Nat) : Option Nat :=
  if isDigitAt l j && isDigitAt l (j + 1) && wordBoundary l (j + 2) then
    some (10 * digitValAt l j + digitValAt l (j + 1))
  else if isDigitAt l j && wordBoundary l (j + 1) then
    some (digitValAt l j)
  else Option.none

def isoDateMatchAt (l : List Char) (i : Nat) : Option (Nat × Nat × Nat) :=
  if wordBoundary l i && ciCharIs l i '2' && ciCharIs l (i + 1) '0' &&
      isDigitAt l (i + 2) && isDigitAt l (i + 3) && isDateSepAt l (i + 4) then
    let y := 2000 + 10 * digitValAt l (i + 2) + digitValAt l (i + 3)
    let monthTwo : Option (Nat × Nat × Nat) :=
      if isDigitAt l (i + 5) && isDigitAt l (i + 6) && isDateSepAt l (i + 7) then
        (dayNumAt l (i + 8)).map
          (fun d => (y, 10 * digitValAt l (i + 5) + digitValAt l (i + 6), d))
      else Option.none
    match monthTwo with
    | some r => some r
    | Option.none =>
      if isDigitAt l (i + 5) && isDateSepAt l (i + 6) then
        (dayNumAt l (i + 7)).map (fun d => (y, digitValAt l (i + 5), d))
      else Option.none
  else Option.none

def isoDateSearch (l : List Char) : Option (Nat × Nat × Nat) :=
  scanPositions (isoDateMatchAt l) (l.length + 1) 0

/-! ### Calendar arithmetic shared with `datetime.date` -/

def isLeapYear (y : Nat) : Bool := y % 4 = 0 && (y % 100 ≠ 0 || y % 400 = 0)

def daysInMonth (y m : Nat) : Nat :=
  if m = 2 then (if isLeapYear y then 29 else 28)
  else if m = 4 || m = 6 || m = 9 || m = 11 then 30
  else 31

/-- Validity of `datetime.date(y, m, d)` (raises `ValueError` otherwise). -/
def validDate (y m d : Nat) : Bool :=
  1 ≤ y && y ≤ 9999 && 1 ≤ m && m ≤ 12 && 1 ≤ d && d ≤ daysInMonth y m

def digitChar (n : Nat) : Char :=
  match n % 10 with
  | 0 => '0' | 1 => '1' | 2 => '2' | 3 => '3' | 4 => '4'
  | 5 => '5' | 6 => '6' | 7 => '7' | 8 => '8' | _ => '9'

/-- `"%02d"` of a value below 1000 (minimum field width two). -/
def fmtMin2 (n : Nat) : List Char :=
  if n < 10 then ['0', digitChar n]
  else if n < 100 then [digitChar (n / 10), digitChar n]
  else [digitChar (n / 100), digitChar (n / 10), digitChar n]

def fmt4 (n : Nat) : List Char :=
  [digitChar (n / 1000), digitChar (n / 100), digitChar (n / 10), digitChar n]

/-- `date(y, m, d).isoformat()`. -/
def isoOfYMD (y m d : Nat) : String :=
  String.mk (fmt4 y ++ '-' :: fmtMin2 m ++ '-' :: fmtMin2 d)

/-- `date(y, m, d).isoformat()` guarded by the constructor's validity check. -/
def mkDateChecked (y m d : Nat) : Option String :=
  if validDate y m d then some (isoOfYMD y m d) else Option.none

def dateLt (a b : Nat × Nat × Nat) : Bool :=
  a.1 < b.1 || (a.1 = b.1 && (a.2.1 < b.2.1 || (a.2.1 = b.2.1 && a.2.2 < b.2.2)))

/-! ### The month-name date pattern

Four alternatives in source order: weekday+month+day+year, month+day+year,
weekday+month+day, month+day; each token is a name prefix followed by a
greedy word-character run, an optional comma or dot, and mandatory
whitespace.  Since word characters are neither commas, dots nor whitespace,
only the day length needs explicit backtracking. -/

def ciPrefixAt : List Char → List Char → Nat → Bool
  | [], _, _ => true
  | c :: cs, l, i => ciCharIs l i c && ciPrefixAt cs l (i + 1)

def wkdayPrefixes : List String := ["mon", "tue", "wed", "thu", "fri", "sat", "sun"]

def monthPrefixes : List String :=
  ["jan", "feb", "mar", "apr", "may", "jun", "jul", "aug", "sep", "oct", "nov", "dec"]

def anyCiPrefixAt (names : List String) (l : List Char) (i : Nat) : Bool :=
  names.any (fun n => ciPrefixAt n.data l i)

/-- weekday token: name prefix, `\w*`, `,?`, `\s+`; returns the position after
the whitespace. -/
def afterWeekdayTok (l : List Char) (i : Nat) : Option Nat :=
  if anyCiPrefixAt wkdayPrefixes l i then
    let j := i + 3 + runLen isWordChar l (i + 3)
    let j := if charAt l j = some ',' then j + 1 else j
    let w := runLen wsChar l j
    if w = 0 then Option.none else some (j + w)
  else Option.none

/-- month token: name prefix, `\w*`, `\.?`, `\s+`. -/
def afterMonthTok (l : List Char) (i : Nat) : Option Nat :=
  if anyCiPrefixAt monthPrefixes l i then
    let j := i + 3 + runLen isWordChar l (i + 3)
    let j := if charAt l j = some '.' then j + 1 else j
    let w := runLen wsChar l j
    if w = 0 then Option.none else some (j + w)
  else Option.none

/-- `\d{1,2},?\s+\d{4}\b` (day and year), greedy day first. -/
def dayYearTail (l : List Char) (j : Nat) : Option Nat :=
  let afterDay : Nat → Option Nat := fun j2 =>
    let j3 := if charAt l j2 = some ',' then j2 + 1 else j2
    let w := runLen wsChar l j3
    if w = 0 then Option.none
    else
      let y0 := j3 + w
      if isDigitAt l y0 && isDigitAt l (y0 + 1) && isDigitAt l (y0 + 2) &&
          isDigitAt l (y0 + 3) && wordBoundary l (y0 + 4) then
        some (y0 + 4)
      else Option.none
  let two : Option Nat :=
    if isDigitAt l j && isDigitAt l (j + 1) then afterDay (j + 2) else Option.none
  match two with
  | some e => some e
  | Option.none => if isDigitAt l j then afterDay (j + 1) else Option.none

/-- `\d{1,2}\b` (day at the end of the two year-less alternatives). -/
def dayOnlyTail (l : List Char) (j : Nat) : Option Nat :=
  if isDigitAt l j && isDigitAt l (j + 1) && wordBoundary l (j + 2) then some (j + 2)
  else if isDigitAt l j && wordBoundary l (j + 1) then some (j + 1)
  else Option.none

/-- The four alternatives tried in source order at one position. -/
def monthDateMatchAt (l : List Char) (i : Nat) : Option Nat :=
  if wordBoundary l i then
    ((afterWeekdayTok l i).bind (fun j => (afterMonthTok l j).bind (dayYearTail l))) <|>
    ((afterMonthTok l i).bind (dayYearTail l)) <|>
    ((afterWeekdayTok l i).bind (fun j => (afterMonthTok l j).bind (dayOnlyTail l))) <|>
    ((afterMonthTok l i).bind (dayOnlyTail l))
  else Option.none

/-- `re.search` of the month-name pattern; returns the matched substring. -/
def monthSearch (l : List Char) : Option (List Char) :=
  scanPositions
    (fun i => (monthDateMatchAt l i).map (fun e => (l.drop i).take (e - i)))
    (l.length + 1) 0

/-! ### `datetime.strptime` for the fixed format lists -/

def replaceAllGo : Nat → List Char → List Char → List Char → List Char
  | 0, _, _, l => l
  | _ + 1, _, _, [] => []
  | fuel + 1, pat, rep, c :: rest =>
    if pat.isPrefixOf (c :: rest) then
      rep ++ replaceAllGo fuel pat rep ((c :: rest).drop pat.length)
    else c :: replaceAllGo fuel pat rep rest

/-- Python `str.replace` (all non-overlapping occurrences, left to right). -/
def replaceAll (pat rep l : List Char) : List Char :=
  replaceAllGo (l.length + 1) pat rep l

def wkdayAbbrs : List String := ["mon", "tue", "wed", "thu", "fri", "sat", "sun"]

def wkdayFulls : List String :=
  ["monday", "tuesday", "wednesday", "thursday", "friday", "saturday", "sunday"]

def monthAbbrs : List String :=
  ["jan", "feb", "mar", "apr", "may", "jun", "jul", "aug", "sep", "oct", "nov", "dec"]

def monthFulls : List String :=
  ["january", "february", "march", "april", "may", "june", "july", "august",
   "september", "october", "november", "december"]

/-- Match one name of the list case-insensitively at `i`; returns its 1-based
index and the end position. -/
def matchNameCI (names : List String) (l : List Char) (i : Nat) : Option (Nat × Nat) :=
  ((names.enum.find? (fun p => ciPrefixAt p.2.data l i)).map
    (fun p => (p.1 + 1, i + p.2.length)))

/-- One `strptime` directive / literal of the formats used by
`_extract_datetime_from_text`. -/
inductive FTok where
  | wd3 | wdFull | mon3 | monFull | comma | sp | day | year

/-- `strptime`'s day directive `(3[01]|[12]\d|0[1-9]|[1-9])`. -/
def dayDirective (l : List Char) (i : Nat) : Option (Nat × Nat) :=
  match charAt l i with
  | some c =>
    if c = '3' && (charAt l (i + 1) = some '0' || charAt l (i + 1) = some '1') then
      some (30 + digitValAt l (i + 1), i + 2)
    else if (c = '1' || c = '2') && isDigitAt l (i + 1) then
      some (10 * digitValAt l i + digitValAt l (i + 1), i + 2)
    else if c = '0' && isDigitAt l (i + 1) && digitValAt l (i + 1) ≠ 0 then
      some (digitValAt l (i + 1), i + 2)
    else if c.isDigit && digitValAt l i ≠ 0 then
      some (digitValAt l i, i + 1)
    else Option.none
  | Option.none => Option.none

structure StpState where
  pos : Nat
  month : Option Nat
  day : Option Nat
  year : Option Nat

def stepTok (l : List Char) (t : FTok) (st : StpState) : Option StpState :=
  match t with
  | .wd3 => (matchNameCI wkdayAbbrs l st.pos).map (fun p => { st with pos := p.2 })
  | .wdFull => (matchNameCI wkdayFulls l st.pos).map (fun p => { st with pos := p.2 })
  | .mon3 =>
    (matchNameCI monthAbbrs l st.pos).map (fun p => { st with pos := p.2, month := some p.1 })
  | .monFull =>
    (matchNameCI monthFulls l st.pos).map (fun p => { st with pos := p.2, month := some p.1 })
  | .comma => if charAt l st.pos = some ',' then some { st with pos := st.pos + 1 } else Option.none
  | .sp =>
    let w := runLen wsChar l st.pos
    if w = 0 then Option.none else some { st with pos := st.pos + w }
  | .day => (dayDirective l st.pos).map (fun p => { st with pos := p.2, day := some p.1 })
  | .year =>
    if isDigitAt l st.pos && isDigitAt l (st.pos + 1) && isDigitAt l (st.pos + 2) &&
        isDigitAt l (st.pos + 3) then
      let y := 1000 * digitValAt l st.pos + 100 * digitValAt l (st.pos + 1) +
        10 * digitValAt l (st.pos + 2) + digitValAt l (st.pos + 3)
      some { st with pos := st.pos + 4, year := some y }
    else Option.none

/-- Run a format against the whole string (`strptime` rejects unconverted
trailing data). -/
def runFmt (toks : List FTok) (l : List Char) : Option StpState :=
  (toks.foldl (fun acc t => acc.bind (stepTok l t)) (some ⟨0, Option.none, Option.none, Option.none⟩)).bind
    (fun st => if st.pos = l.length then some st else Option.none)

def yearFormats : List (List FTok) :=
  [[.wd3, .comma, .sp, .mon3, .sp, .day, .comma, .sp, .year],
   [.wd3, .sp, .mon3, .sp, .day, .comma, .sp, .year],
   [.wdFull, .comma, .sp, .monFull, .sp, .day, .comma, .sp, .year],
   [.wdFull, .sp, .monFull, .sp, .day, .comma, .sp, .year],
   [.mon3, .sp, .day, .comma, .sp, .year],
   [.monFull, .sp, .day, .comma, .sp, .year]]

def noYearFormats : List (List FTok) :=
  [[.wd3, .comma, .sp, .mon3, .sp, .day],
   [.wd3, .sp, .mon3, .sp, .day],
   [.wdFull, .comma, .sp, .monFull, .sp, .day],
   [.wdFull, .sp, .monFull, .sp, .day],
   [.mon3, .sp, .day],
   [.monFull, .sp, .day]]

def tryYearFmt (raw : List Char) (f : List FTok) : Option String :=
  match runFmt f raw with
  | some st =>
    match st.month, st.day, st.year with
    | some m, some d, some y => mkDateChecked y m d
    | _, _, _ => Option.none
  | Option.none => Option.none

/-- The year-less branch: `strptime` with default year 1900 (its internal
`datetime` constructor validates the day against 1900), then
`date(current_year, m, d)`, rolled to the next year when already past;
every `ValueError` falls through to the next format. -/
def tryNoYearFmt (today : Nat × Nat × Nat) (raw : List Char) (f : List FTok) : Option String :=
  match runFmt f raw with
  | some st =>
    match st.month, st.day with
    | some m, some d =>
      if !validDate 1900 m d then Option.none
      else if !validDate today.1 m d then Option.none
      else if dateLt (today.1, m, d) today then mkDateChecked (today.1 + 1) m d
      else mkDateChecked today.1 m d
    | _, _ => Option.none
  | Option.none => Option.none

def firstSome {α : Type} : List (Option α) → Option α
  | [] => Option.none
  | o :: rest =>
    match o with
    | some x => some x
    | Option.none => firstSome rest

/-- The month-name branch of `_extract_datetime_from_text` applied to the
matched text: drop dots, normalise `Sept`/`sept`, then try the two format
lists. -/
def monthRawToDate (today : Nat × Nat × Nat) (raw : List Char) : Option String :=
  let raw := replaceAll "sept".data "sep".data
    (replaceAll "Sept".data "Sep".data (raw.filter (· ≠ '.')))
  match firstSome (yearFormats.map (tryYearFmt raw)) with
  | some d => some d
  | Option.none => firstSome (noYearFormats.map (tryNoYearFmt today raw))

/-! ### `_extract_datetime_from_text` -/

/-- `_extract_datetime_from_text`; `today` is `date.today()` as a
`(year, month, day)` triple. -/
def extractDatetimeFromText (today : Nat × Nat × Nat) (text : String) :
    Option String × Option String :=
  let compact := stripWsL (collapseWsL text.data)
  if compact.isEmpty then (Option.none, Option.none)
  else
    let isoDate : Option String :=
      match isoDateSearch compact with
      | some (y, m, d) => mkDateChecked y m d
      | Option.none => Option.none
    let localDate : Option String :=
      match isoDate with
      | some d => some d
      | Option.none =>
        match monthSearch compact with
        | some raw => monthRawToDate today raw
        | Option.none => Option.none
    let localTime : Option String :=
      match timeSearch compact with
      | some (h, mi, pm) =>
        let h2 := if pm && h ≠ 12 then h + 12 else if !pm && h = 12 then 0 else h
        some (String.mk (fmtMin2 h2 ++ ':' :: fmtMin2 mi))
      | Option.none => Option.none
    (localDate, localTime)

/-! ## The Event record

Field types follow the values the pipeline actually stores; manual-event
fields copied verbatim from the input file are modelled at their documented
types (string / number / dict), with `asOptStr` / `asOptNum` marking that
boundary. -/

structure Event where
  id : String
  name : String
  url : Option String
  localDate : Option String
  localTime : Option String
  dateTBA : Bool
  timeTBA : Bool
  status : Option String
  image : Option String
  priceMin : Option ℚ
  priceMax : Option ℚ
  currency : Option String
  genre : Option String
  subGenre : Option String
  segment : Option String
  venue : PyVal
  source : String

def TICKET_HOST_HINTS : List String :=
  ["etix.com", "ticketmaster.com", "axs.com", "eventbrite.com", "seetickets.com"]

def KNOWN_VENUES : List (String × PyVal) :=
  [("harlows", .dict [("name", .str "Harlow's"), ("address", .str "2708 J St"),
     ("city", .str "Sacramento"), ("state", .str "CA"), ("postalCode", .str "95816")]),
   ("the_starlet_room", .dict [("name", .str "The Starlet Room"), ("address", .str "2708 J St"),
     ("city", .str "Sacramento"), ("state", .str "CA"), ("postalCode", .str "95816")]),
   ("ace_of_spades", .dict [("name", .str "Ace of Spades"), ("address", .str "1417 R St"),
     ("city", .str "Sacramento"), ("state", .str "CA"), ("postalCode", .str "95811")]),
   ("cafe_colonial", .dict [("name", .str "Cafe Colonial"), ("address", .str "3522 Stockton Blvd"),
     ("city", .str "Sacramento"), ("state", .str "CA"), ("postalCode", .str "95820")]),
   ("channel_24", .dict [("name", .str "Channel 24"), ("address", .str "1800 24th St"),
     ("city", .str "Sacramento"), ("state", .str "CA"), ("postalCode", .str "95816")]),
   ("goldfield_trading_post", .dict [("name", .str "Goldfield Trading Post"),
     ("city", .str "Sacramento"), ("state", .str "CA")]),
   ("old_ironsides", .dict [("name", .str "Old Ironsides"),
     ("city", .str "Sacramento"), ("state", .str "CA")]),
   ("the_boardwalk", .dict [("name", .str "The Boardwalk"), ("address", .str "9426 Greenback Ln"),
     ("city", .str "Orangevale"), ("state", .str "CA"), ("postalCode", .str "95662")])]

def knownVenueGet (key : String) : PyVal :=
  (((KNOWN_VENUES.find? (fun p => p.1 == key)).map (·.2)).getD (.dict []))

/-! ## Small Python-semantics helpers shared by the event builders -/

/-- Python `a or b`. -/
def orPy (a b : PyVal) : PyVal := if pyTruthy a then a else b

def optStrToPy : Option String → PyVal
  | some s => .str s
  | Option.none => .none

/-- `(value or "")` fed to a string method: non-string truthy values raise
(`AttributeError` / `TypeError`), which the caller does not catch. -/
def strOrEmpty (v : PyVal) : Except Unit String :=
  if pyTruthy v then
    match v with
    | .str s => .ok s
    | _ => .error ()
  else .ok ""

def unescapeStr (s : String) : String := String.mk (unescapeL s.data)

/-- `_clean_event_name` on a loose value: falsy becomes `""`, a truthy
non-string raises at `.strip()`. -/
def cleanNamePy (v : PyVal) : Except Unit String :=
  (strOrEmpty v).map cleanEventName

/-- `_canonicalize_url` on a loose value: falsy values are returned as-is
(all of them behave as "no url" downstream, modelled as `none`, except the
empty string which is kept); a truthy non-string raises at `.split`. -/
def canonicalizePy (v : PyVal) : Except Unit (Option String) :=
  match v with
  | .str s => .ok (some (canonicalizeStr s))
  | v => if pyTruthy v then .error () else .ok Option.none

/-- `_parse_iso_date` on the loose `startDate` value: the falsy guard returns
no date, a truthy non-string raises at `.replace`; actual string parsing is
the `parseIsoStr` collaborator. -/
def parseIsoPy (parseIsoStr : String → Option String × Option String) (v : PyVal) :
    Except Unit (Option String × Option String) :=
  match v with
  | .str s => if s = "" then .ok (Option.none, Option.none) else .ok (parseIsoStr s)
  | v => if pyTruthy v then .error () else .ok (Option.none, Option.none)

/-- `str(x)` for the genre join; only the string case is exercised by any
theorem (non-string renderings are schematic). -/
def pyStrRepr : PyVal → String
  | .str s => s
  | .none => "None"
  | .bool b => if b then "True" else "False"
  | .num q => toString q
  | .list _ => "[...]"
  | .dict _ => "\x7b...\x7d"

/-- The genre normalisation of `_normalize_event`: join list items, then
unescape any truthy result. -/
def genreOf (g : PyVal) : PyVal :=
  let g1 : PyVal :=
    match g with
    | .list xs =>
      .str (String.intercalate ", "
        ((xs.filter pyTruthy).map (fun item => String.mk (stripWsL (pyStrRepr item).data))))
    | v => v
  if pyTruthy g1 then
    match g1 with
    | .str s => .str (unescapeStr s)
    | v => .str (unescapeStr (pyStrRepr v))
  else g1

/-! ## `_normalize_event` -/

/-- The record assembled by `_normalize_event` once the fallible parts
(name, url, start date, venue strings) have been computed. -/
def mkNormalizedEvent (source : String) (event : PyVal) (name : String)
    (url : Option String) (dp : Option String × Option String)
    (venueName1 street city state postal : String) : Event :=
  let image0 := pyGet event "image"
  let image1 : PyVal :=
    match image0 with
    | .list xs => xs.headD .none
    | v => v
  let offers0 := pyGet event "offers"
  let offers : PyVal :=
    match offers0 with
    | .list xs => xs.headD .none
    | v => v
  let priceInfo := parsePrice (match offers with | .dict _ => pyGet offers "price" | _ => .none)
  let venueKey :=
    if source == "harlows" && containsSub "starlet".data (toLowerL venueName1.data) then
      "the_starlet_room"
    else source
  let fallbackV := knownVenueGet venueKey
  let venueNameF : PyVal := if venueName1 ≠ "" then .str venueName1 else pyGet fallbackV "name"
  let genre := genreOf (pyGet event "genre")
  { id := buildId source url name dp.1
    name := name
    url := url
    localDate := dp.1
    localTime := dp.2
    dateTBA := dp.1.isNone
    timeTBA := dp.2.isNone
    status := Option.none
    image := asOptStr image1
    priceMin := priceInfo.1
    priceMax := priceInfo.2
    currency := match offers with | .dict _ => asOptStr (pyGet offers "priceCurrency") | _ => Option.none
    genre := asOptStr genre
    subGenre := Option.none
    segment := Option.none
    venue := .dict [("name", venueNameF), ("address", .str street), ("city", .str city),
      ("state", .str state), ("postalCode", .str postal)]
    source := source }

def normalizeEvent (parseIsoStr : String → Option String × Option String)
    (source : String) (event : PyVal) (fallbackUrl : Option String) :
    Except Unit Event := do
  let name ← cleanNamePy (orPy (pyGet event "name") (.str "Untitled Show"))
  let url ← canonicalizePy (orPy (pyGet event "url") (optStrToPy fallbackUrl))
  let dateParts ← parseIsoPy parseIsoStr (pyGet event "startDate")
  let location : PyVal := match pyGet event "location" with | .dict kvs => .dict kvs | _ => .dict []
  let address : PyVal := match pyGet location "address" with | .dict kvs => .dict kvs | _ => .dict []
  let venueName1 ← (strOrEmpty (pyGet location "name")).map unescapeStr
  let venueKey :=
    if source == "harlows" && containsSub "starlet".data (toLowerL venueName1.data) then
      "the_starlet_room"
    else source
  let fallbackV := knownVenueGet venueKey
  let street ← (strOrEmpty (orPy (pyGet address "streetAddress") (pyGet fallbackV "address"))).map unescapeStr
  let city ← (strOrEmpty (orPy (pyGet address "addressLocality") (pyGet fallbackV "city"))).map unescapeStr
  let state ← (strOrEmpty (orPy (pyGet address "addressRegion") (pyGet fallbackV "state"))).map unescapeStr
  let postal ← (strOrEmpty (orPy (pyGet address "postalCode") (pyGet fallbackV "postalCode"))).map unescapeStr
  return mkNormalizedEvent source event name url dateParts venueName1 street city state postal

/-! ## `_title_from_event_url` -/

def splitCharL (sep : Char) : List Char → List (List Char)
  | [] => [[]]
  | c :: rest =>
    let r := splitCharL sep rest
    if c = sep then [] :: r
    else
      match r with
      | h :: t => (c :: h) :: t
      | [] => [[c]]

/-- Python `str.split()` with no arguments: whitespace-separated words,
empties dropped. -/
def wordsOfGo : Nat → List Char → List (List Char)
  | 0, _ => []
  | _ + 1, [] => []
  | fuel + 1, c :: rest =>
    if wsChar c then wordsOfGo fuel rest
    else
      let w := (c :: rest).takeWhile (fun x => !wsChar x)
      w :: wordsOfGo fuel ((c :: rest).dropWhile (fun x => !wsChar x))

def wordsOf (l : List Char) : List (List Char) := wordsOfGo (l.length + 1) l

/-- Python `str.capitalize()`: first character upper-cased, the rest
lower-cased. -/
def capitalizeWord : List Char → List Char
  | [] => []
  | c :: rest => c.toUpper :: rest.map Char.toLower

/-- The trailing `-\d{6,8}(?:-[a-z]+)?$` strip (IGNORECASE is irrelevant to
digits; the letter tail accepts both cases): leftmost position whose match
reaches the end of the string. -/
def dateSuffixMatchAt (l : List Char) (i : Nat) : Bool :=
  match charAt l i with
  | some '-' =>
    let r := runLen Char.isDigit l (i + 1)
    if 6 ≤ r && r ≤ 8 then
      let p := i + 1 + r
      if p = l.length then true
      else
        match charAt l p with
        | some '-' =>
          let letters := runLen (fun c => c.isAlpha) l (p + 1)
          1 ≤ letters && p + 1 + letters = l.length
        | _ => false
    else false
  | _ => false

def stripDateSuffix (l : List Char) : List Char :=
  match scanPositions (fun i => if dateSuffixMatchAt l i then some i else Option.none)
      (l.length + 1) 0 with
  | some i => l.take i
  | Option.none => l

/-- The trailing month-abbreviation strip `-(jan|...|dec)$` (IGNORECASE). -/
def stripMonthSuffix (l : List Char) : List Char :=
  if 4 ≤ l.length then
    let tail := l.drop (l.length - 4)
    match tail with
    | '-' :: m =>
      if monthPrefixes.any (fun n => toLowerL m == n.data) then l.take (l.length - 4) else l
    | _ => l
  else l

/-- The `path` component of `urlparse`. -/
def pathOf (s : String) : List Char :=
  let rest :=
    match splitFirstL [':'] s.data with
    | some (pre, post) =>
      if pre ≠ [] && (pre.headD ' ').isAlpha &&
          pre.all (fun c => c.isAlphanum || c = '+' || c = '-' || c = '.') then post
      else s.data
    | Option.none => s.data
  let afterHost :=
    if "//".data.isPrefixOf rest then
      (rest.drop 2).dropWhile (fun c => !(c = '/' || c = '?' || c = '#'))
    else rest
  (afterHost.takeWhile (· ≠ '?')).takeWhile (· ≠ '#')

/-- `_title_from_event_url`. -/
def titleFromEventUrl (url : String) : Option String :=
  let path := stripSetL ['/'] (pathOf url)
  if path.isEmpty then Option.none
  else
    let segments := splitCharL '/' path
    let slug :=
      if 3 ≤ segments.length &&
          toLowerL (segments.getD (segments.length - 2) []) == "event".data then
        segments.getD (segments.length - 3) []
      else segments.getLastD []
    if slug.isEmpty then Option.none
    else
      let slug := replaceAll ".html".data [] slug
      let slug := stripDateSuffix slug
      let slug := stripMonthSuffix slug
      let slug := stripWsL (slug.map (fun c => if c = '-' then ' ' else c))
      if slug.isEmpty then Option.none
      else
        let slug :=
          if slug.any Char.isAlpha then
            (List.intersperse [' '] ((wordsOf slug).map capitalizeWord)).flatten
          else slug
        some (cleanEventName (String.mk slug))

/-! ## `_extract_best_title` and `_extract_best_image_url` -/

/-- An optional string appended to a candidate list only when truthy
(the `if x and x.get("content")` pattern). -/
def optTruthyList : Option String → List String
  | some s => if s ≠ "" then [s] else []
  | Option.none => []

def optTruthyB : Option String → Bool
  | some s => s ≠ ""
  | Option.none => false

structure Img where
  src : String
  alt : String
  width : Nat
  height : Nat

structure Anchor where
  text : String
  href : String

def firstNonGeneric : List String → Option String
  | [] => Option.none
  | c :: rest =>
    let cleaned := cleanEventName c
    if cleaned ≠ "" && !isGenericTitle cleaned then some cleaned
    else firstNonGeneric rest

def pickImage : List String → Option String
  | [] => Option.none
  | c :: rest =>
    if c = "" then pickImage rest
    else if ["logo", "icon", "favicon", "sprite", "placeholder"].any
        (fun t => containsSub t.data (toLowerL c.data)) then pickImage rest
    else some c

/-- `_extract_best_image_url` over the meta images and `<img src=…>` tags:
small declared sizes are skipped, alt-text matches are pushed to the front
(`insert(0, …)`), the rest appended; then the first candidate free of
logo-ish tokens wins. -/
def extractBestImageUrl (metas : List String) (imgs : List Img)
    (eventName : Option String) : Option String :=
  let cands := imgs.foldl (fun cands img =>
    if (img.width ≠ 0 && img.width < 250) || (img.height ≠ 0 && img.height < 250) then cands
    else
      let altMatch :=
        match eventName with
        | some n => n ≠ "" && containsSub (toLowerL n.data) (toLowerL img.alt.data)
        | Option.none => false
      if altMatch then img.src :: cands else cands ++ [img.src]) metas
  pickImage cands

/-- `_looks_free`. -/
def looksFree (s : String) : Bool :=
  ["free admission", "free show", "free event", "no cover", "free entry"].any
    (fun t => containsSub t.data (toLowerL s.data))

/-! ## `_extract_prices_from_text` and `_extract_ticket_prices_from_text` -/

/-- Scanner for `re.findall(r"\$\s?(\d+(?:\.\d{1,2})?)", text)` applied to
the comma-stripped text; values must be `> 0`. -/
def pricesInGo : Nat → List Char → List ℚ
  | 0, _ => []
  | _ + 1, [] => []
  | fuel + 1, '$' :: rest =>
    let rest1 :=
      match rest with
      | c :: r => if wsChar c then r else rest
      | [] => rest
    let ds := rest1.takeWhile Char.isDigit
    if ds.isEmpty then pricesInGo fuel rest
    else
      let r2 := rest1.dropWhile Char.isDigit
      match r2 with
      | '.' :: r3 =>
        let fs := (r3.takeWhile Char.isDigit).take 2
        if fs.isEmpty then
          let v := ratOfDigits ds []
          (if 0 < v then [v] else []) ++ pricesInGo fuel r2
        else
          let v := ratOfDigits ds fs
          (if 0 < v then [v] else []) ++ pricesInGo fuel (r3.drop fs.length)
      | _ =>
        let v := ratOfDigits ds []
        (if 0 < v then [v] else []) ++ pricesInGo fuel r2
  | fuel + 1, _ :: rest => pricesInGo fuel rest

/-- `_extract_prices_from_text`. -/
def extractPricesFromText (text : String) : List ℚ :=
  let l := text.data.filter (· ≠ ',')
  pricesInGo (l.length + 1) l

def ticketKeywords : List String :=
  ["ticket", "tickets", "adv", "advance", "door", "presale", "on sale"]

/-- The keyword alternation with its surrounding word boundaries; returns the
end position.  Alternatives are tried in source order and the trailing `\b`
belongs to the continuation, so a failing earlier alternative falls through
to a longer one (`ticket` → `tickets`). -/
def ticketKeywordAt (l : List Char) (p : Nat) : Option Nat :=
  (ticketKeywords.filterMap (fun kw =>
    if ciPrefixAt kw.data l p && wordBoundary l (p + kw.length) then
      some (p + kw.length)
    else Option.none)).head?

/-- One attempted window start `i + j`: a word boundary followed by a
keyword; on success the snippet runs to at most 120 non-dot characters past
the keyword. -/
def snipAttempt (l : List Char) (i j : Nat) : Option (List Char × Nat) :=
  if wordBoundary l (i + j) then
    match ticketKeywordAt l (i + j) with
    | some e =>
      let e2 := e + min 120 (runLen (· ≠ '.') l e)
      some ((l.drop i).take (e2 - i), e2)
    | Option.none => Option.none
  else Option.none

/-- Greedy prefix: try `j, j-1, …, 0` in that order. -/
def snipTry (l : List Char) (i : Nat) : Nat → Option (List Char × Nat)
  | 0 => snipAttempt l i 0
  | j + 1 =>
    match snipAttempt l i (j + 1) with
    | some r => some r
    | Option.none => snipTry l i j

/-- `[^.]{0,80}\b(keyword)\b[^.]{0,120}`, greedy prefix first, at position
`i`; returns the snippet and the end position. -/
def snippetAt (l : List Char) (i : Nat) : Option (List Char × Nat) :=
  snipTry l i (min 80 (runLen (· ≠ '.') l i))

def snippetsGo (l : List Char) : Nat → Nat → List (List Char)
  | 0, _ => []
  | fuel + 1, i =>
    if i > l.length then []
    else
      match snippetAt l i with
      | some (snip, e) => snip :: snippetsGo l fuel (max e (i + 1))
      | Option.none => snippetsGo l fuel (i + 1)

/-- `_extract_ticket_prices_from_text`: whitespace-collapsed text, keyword
windows, then the dollar-price scanner on each window. -/
def extractTicketPricesFromText (text : String) : List ℚ :=
  if text = "" then []
  else
    let compact := collapseWsL text.data
    ((snippetsGo compact (compact.length + 1) 0).map
      (fun snip => extractPricesFromText (String.mk snip))).flatten

/-! ## `_find_ticket_links` and `_extract_ticket_links_from_html` -/

def anchorScore (a : Anchor) : Nat :=
  let text := toLowerL a.text.data
  let base :=
    if containsSub "buy tickets".data text then 6
    else if containsSub "get tickets".data text then 5
    else if containsSub "tickets".data text then 4
    else if containsSub "buy".data text then 3
    else 0
  let hrefLower := toLowerL a.href.data
  base + (if TICKET_HOST_HINTS.any (fun h => containsSub h.data hrefLower) then 4 else 0)

def dedupAnchorsGo : List String → List Anchor → List Anchor
  | _, [] => []
  | seen, a :: rest =>
    if seen.contains a.href then dedupAnchorsGo seen rest
    else a :: dedupAnchorsGo (a.href :: seen) rest

/-- Stable descending insertion by score (`list.sort(key=…, reverse=True)`
keeps the original order of equal keys). -/
def insertDesc (x : Nat × String) : List (Nat × String) → List (Nat × String)
  | [] => [x]
  | y :: ys => if x.1 ≤ y.1 then y :: insertDesc x ys else x :: y :: ys

def sortDescStable (l : List (Nat × String)) : List (Nat × String) :=
  l.foldl (fun acc x => insertDesc x acc) []

/-- `_find_ticket_links`: de-duplicate anchors by href (first wins), score by
anchor text and ticketing-host hints, keep positive scores, sort descending
stably. -/
def findTicketLinks (anchors : List Anchor) : List String :=
  let deduped := dedupAnchorsGo [] anchors
  let ranked := deduped.filterMap (fun a =>
    let s := anchorScore a
    if 0 < s then some (s, a.href) else Option.none)
  (sortDescStable ranked).map (·.2)

def dedupKeepFirstGo : List String → List String → List String
  | _, [] => []
  | seen, x :: rest =>
    if seen.contains x then dedupKeepFirstGo seen rest
    else x :: dedupKeepFirstGo (x :: seen) rest

def dedupKeepFirst (l : List String) : List String := dedupKeepFirstGo [] l

/-! ## urlparse / urljoin models -/

/-- The scheme split of `urlparse`: a leading `scheme:` whose name starts
with a letter and uses only letters, digits, `+`, `-`, `.`. -/
def schemeSplit (l : List Char) : Option (List Char × List Char) :=
  match splitFirstL [':'] l with
  | some (pre, post) =>
    if pre ≠ [] && (pre.headD ' ').isAlpha &&
        pre.all (fun c => c.isAlphanum || c = '+' || c = '-' || c = '.') then
      some (pre, post)
    else Option.none
  | Option.none => Option.none

def isNetlocEnd (c : Char) : Bool := c = '/' || c = '?' || c = '#'

/-- `urlparse(s).netloc`. -/
def netlocOf (s : String) : String :=
  let rest :=
    match schemeSplit s.data with
    | some p => p.2
    | Option.none => s.data
  if "//".data.isPrefixOf rest then
    String.mk ((rest.drop 2).takeWhile (fun c => !isNetlocEnd c))
  else ""

/-- Model of `urllib.parse.urljoin` for the cases the pipeline exercises: an
absolute `http(s)` reference is returned unchanged (the case every theorem
relies on); root-relative and protocol-relative references resolve against
the base authority; other relative references replace the base's last path
segment (RFC 3986 dot-segment handling omitted; no theorem depends on this
branch). -/
def urljoin (base rel : String) : String :=
  if "http://".data.isPrefixOf rel.data || "https://".data.isPrefixOf rel.data then rel
  else if rel = "" then base
  else
    match schemeSplit base.data with
    | some (sch, rest) =>
      if "//".data.isPrefixOf rest then
        let netloc := (rest.drop 2).takeWhile (fun c => !isNetlocEnd c)
        let afterNetloc := (rest.drop 2).drop netloc.length
        if "//".data.isPrefixOf rel.data then String.mk (sch ++ ':' :: rel.data)
        else if "/".data.isPrefixOf rel.data then
          String.mk (sch ++ ':' :: '/' :: '/' :: netloc ++ rel.data)
        else
          let path := afterNetloc.takeWhile (fun c => !(c = '?' || c = '#'))
          let dir := (path.reverse.dropWhile (· ≠ '/')).reverse
          String.mk (sch ++ ':' :: '/' :: '/' :: netloc ++ dir ++ rel.data)
      else rel
    | Option.none => rel

/-! ## `_looks_like_event_detail_url` -/

/-- An occurrence of `pat` followed by at least one character accepted by
`ok` (the `[^/?#]+` / `\d+` tails of the detail-path patterns). -/
def followedBy (pat : List Char) (ok : Char → Bool) : List Char → Bool
  | [] => false
  | c :: rest =>
    (pat.isPrefixOf (c :: rest) &&
      (match (c :: rest).drop pat.length with
       | d :: _ => ok d
       | [] => false)) || followedBy pat ok rest

def notPathDelim (c : Char) : Bool := !(c = '/' || c = '?' || c = '#')

def isSuffixOfL (pat l : List Char) : Bool := pat.reverse.isPrefixOf l.reverse

def looksLikeEventDetailUrl (href : String) : Bool :=
  let lowered := toLowerL href.data
  if containsSub "/venue/".data lowered then false
  else if isSuffixOfL "-events".data lowered then false
  else
    followedBy "/event/".data notPathDelim lowered ||
    followedBy "/events/".data notPathDelim lowered ||
    followedBy "/shows/".data notPathDelim lowered ||
    followedBy "/show/".data notPathDelim lowered ||
    followedBy "/concert/".data notPathDelim lowered ||
    followedBy "/calendar/".data notPathDelim lowered ||
    followedBy "/ticket/p/".data notPathDelim lowered ||
    followedBy "/ticket/e/".data notPathDelim lowered ||
    followedBy "/ticket/".data Char.isDigit lowered

/-! ## Page model

A fetched+parsed detail page, i.e. the data `_scrape_event_page` reads off
`BeautifulSoup(html, "lxml")` and the raw body:

* `scripts`: the `json.loads` result of each `script[type="application/ld+json"]`
  block (`none` when parsing raised);
* `text`: `soup.get_text(" ", strip=True)`;
* `ogTitle`/`twitterTitle`/`titleTag`: the respective `content`/string values
  when present (the truthiness checks of the code are re-applied);
  `h1`: the text of the first `h1`, present whenever the tag exists;
* `ogImage`/`twitterImage`/`itempropImage`: meta image contents;
* `imgs`: every `img[src]` with its `src`, `alt` (already lower-cased by the
  code before use, stored raw here) and parsed `width`/`height` (0 when the
  attribute is absent; pages whose size attributes fail `int()` are outside
  the model);
* `anchors`: every `a[href]` with its rendered text and raw `href`;
* `ticketMatches`: the result of the ticketing-provider regex of
  `_extract_ticket_links_from_html` over the backslash-decoded body;
* `rawHtml`: the raw body, fed to the text price extractors on ticket pages. -/

structure PageData where
  scripts : List (Option PyVal)
  text : String
  ogTitle : Option String
  twitterTitle : Option String
  h1 : Option String
  titleTag : Option String
  ogImage : Option String
  twitterImage : Option String
  itempropImage : Option String
  imgs : List Img
  anchors : List Anchor
  ticketMatches : List String
  rawHtml : String

/-- The collaborators of `_scrape_event_page`: the network fetch (a page per
URL, `none` on any fetch failure), the string-parsing part of
`_parse_iso_date`, and `date.today()`. -/
structure Env where
  fetch : String → Option PageData
  parseIsoStr : String → Option String × Option String
  today : Nat × Nat × Nat

/-- `_extract_best_title`. -/
def extractBestTitle (pd : PageData) : Option String :=
  firstNonGeneric
    (optTruthyList pd.ogTitle ++ optTruthyList pd.twitterTitle ++
      (match pd.h1 with | some s => [s] | Option.none => []) ++
      optTruthyList pd.titleTag)

def venueDefault : PyVal :=
  .dict [("name", .none), ("city", .str "Sacramento"), ("state", .str "CA")]

def knownVenueOr (source : String) : PyVal :=
  (((KNOWN_VENUES.find? (fun p => p.1 == source)).map (·.2)).getD venueDefault)

/-- The free-text fallback event of `_scrape_event_page` (no structured-data
candidate): date/time from the page text, the first non-generic title, the
`og:image` content, the static venue table. -/
def mkFreeTextEvent (env : Env) (url source : String) (pd : PageData)
    (title : String) : Event :=
  let parsed := extractDatetimeFromText env.today pd.text
  let image : Option String :=
    match pd.ogImage with
    | some s => if s ≠ "" then some (String.mk (stripWsL s.data)) else Option.none
    | Option.none => Option.none
  { id := buildId source (some (canonicalizeStr url)) title parsed.1
    name := title
    url := some (canonicalizeStr url)
    localDate := parsed.1
    localTime := parsed.2
    dateTBA := parsed.1.isNone
    timeTBA := parsed.2.isNone
    status := Option.none
    image := image
    priceMin := Option.none
    priceMax := Option.none
    currency := some "USD"
    genre := Option.none
    subGenre := Option.none
    segment := Option.none
    venue := knownVenueOr source
    source := source }

/-- Steps 1–3 of `_scrape_event_page`: structured-data normalization when a
candidate exists, else the free-text event construction (requires a
non-generic title). -/
def constructEvent (env : Env) (url source : String) (pd : PageData) :
    Except Unit (Option Event) :=
  let items := parseJsonld pd.scripts
  match extractEventFromJsonld items with
  | some eventData => (normalizeEvent env.parseIsoStr source eventData (some url)).map some
  | Option.none =>
    match extractBestTitle pd with
    | Option.none => .ok Option.none
    | some title => .ok (some (mkFreeTextEvent env url source pd title))

/-- Step 4, the generic-title rescue: derive a title from the URL or discard
the event; on substitution the id is recomputed from the event's current
url and localDate. -/
def rescueTitle (url source : String) (ev : Event) : Option Event :=
  if isGenericTitle ev.name then
    match titleFromEventUrl url with
    | Option.none => Option.none
    | some derived =>
      if derived = "" || isGenericTitle derived then Option.none
      else some { ev with
        name := derived
        id := buildId source ev.url derived ev.localDate }
  else some ev

/-- Step 5, image backfill. -/
def imageStage (pd : PageData) (ev : Event) : Event :=
  if !optTruthyB ev.image then
    let img := extractBestImageUrl
      (optTruthyList pd.ogImage ++ optTruthyList pd.twitterImage ++
        optTruthyList pd.itempropImage) pd.imgs (some ev.name)
    { ev with image := img }
  else ev

/-- Step 6, date/time backfill from the free-text extractor; the TBA flags
are refreshed from the new values. -/
def dtBackfillStage (env : Env) (pd : PageData) (ev : Event) : Event :=
  if !optTruthyB ev.localDate || !optTruthyB ev.localTime then
    let parsed := extractDatetimeFromText env.today pd.text
    let ev :=
      if !optTruthyB ev.localDate then
        { ev with localDate := parsed.1, dateTBA := parsed.1.isNone }
      else ev
    if !optTruthyB ev.localTime then
      { ev with localTime := parsed.2, timeTBA := parsed.2.isNone }
    else ev
  else ev

def priceNeedy (ev : Event) : Bool :=
  (ev.priceMin == Option.none || ev.priceMin == some 0) &&
  (ev.priceMax == Option.none || ev.priceMax == some 0)

/-- Setting both price bounds to a found value, defaulting the currency. -/
def setPrice (ev : Event) (best : ℚ) : Event :=
  let cur := if optTruthyB ev.currency then ev.currency else some "USD"
  { ev with priceMin := some best, priceMax := some best, currency := cur }

def minD (l : List ℚ) : ℚ := (listMin l).getD 0

/-- `_extract_ticket_links_from_html` given the regex matches over the
decoded body: resolve against the base URL and de-duplicate keeping the
first occurrence. -/
def ticketLinksFromHtml (ms : List String) (baseUrl : String) : List String :=
  dedupKeepFirst (ms.map (urljoin baseUrl))

/-- All ticket-price candidates of one fetched ticket page: structured
offers, then raw-body dollar amounts, then keyword-windowed amounts. -/
def ticketPagePrices (tpd : PageData) : List ℚ :=
  extractPricesFromJsonld (parseJsonld tpd.scripts) ++
    extractPricesFromText tpd.rawHtml ++ extractTicketPricesFromText tpd.rawHtml

/-- The inner (depth-2) ticket-link loop: first page with any price wins. -/
def crawlNested (env : Env) (ev : Event) (turl : String) : List String → Option Event
  | [] => Option.none
  | href :: rest =>
    let nurl := urljoin turl href
    match env.fetch nurl with
    | Option.none => crawlNested env ev turl rest
    | some npd =>
      let nprices := ticketPagePrices npd
      if !nprices.isEmpty then some (setPrice ev (minD nprices))
      else crawlNested env ev turl rest

/-- The outer (depth-1) ticket-link loop with its nested fallback; a price
found at any depth stops all further crawling. -/
def crawlTop (env : Env) (ev : Event) (baseUrl : String) : List String → Event
  | [] => ev
  | href :: rest =>
    let turl := urljoin baseUrl href
    match env.fetch turl with
    | Option.none => crawlTop env ev baseUrl rest
    | some tpd =>
      let tprices := ticketPagePrices tpd
      if !tprices.isEmpty then setPrice ev (minD tprices)
      else
        let nested := dedupKeepFirst
          (findTicketLinks tpd.anchors ++ ticketLinksFromHtml tpd.ticketMatches turl)
        match crawlNested env ev turl (nested.take 3) with
        | some ev2 => ev2
        | Option.none => crawlTop env ev baseUrl rest

/-- The ticket links of the detail page itself (step 7c). -/
def pageTicketLinks (pd : PageData) (url : String) : List String :=
  dedupKeepFirst (findTicketLinks pd.anchors ++ ticketLinksFromHtml pd.ticketMatches url)

/-- Step 7, price backfill: structured offers, then keyword-windowed page
text, then the ticket-link crawl; when any ticket link exists the event url
is replaced by the top-ranked link (resolved against the page URL, not
canonicalized). -/
def priceStage (env : Env) (pd : PageData) (url : String) (ev : Event) : Event :=
  if !priceNeedy ev then ev
  else
    let jp := extractPricesFromJsonld (parseJsonld pd.scripts)
    if !jp.isEmpty then setPrice ev (minD jp)
    else
      let pp := extractTicketPricesFromText pd.text
      if !pp.isEmpty then setPrice ev (minD pp)
      else
        let tlinks := pageTicketLinks pd url
        let ev2 :=
          if !tlinks.isEmpty then { ev with url := some (urljoin url (tlinks.headD "")) }
          else ev
        crawlTop env ev2 url (tlinks.take 5)

/-- Step 8, the zero-price correction. -/
def zeroFixStage (pd : PageData) (ev : Event) : Event :=
  if ev.priceMin == some 0 && ev.priceMax == some 0 && !looksFree pd.text then
    { ev with priceMin := Option.none, priceMax := Option.none }
  else ev

/-- `_scrape_event_page`: `.error` models an uncaught exception inside the
worker (the orchestrator drops the page), `.ok none` a page yielding no
event. -/
def scrapeEventPage (env : Env) (url source : String) : Except Unit (Option Event) :=
  match env.fetch url with
  | Option.none => .ok Option.none
  | some pd => do
    match ← constructEvent env url source pd with
    | Option.none => .ok Option.none
    | some ev0 =>
      match rescueTitle url source ev0 with
      | Option.none => .ok Option.none
      | some ev1 =>
        .ok (some (zeroFixStage pd
          (priceStage env pd url (dtBackfillStage env pd (imageStage pd ev1)))))

/-! ## `_load_manual_events` -/

/-- The record built from one manual-events entry once its cleaned name and
canonicalized url are known.  All remaining fields are copied verbatim from
the record (the TBA flags via Python truthiness); the id comes from the
record when truthy, else from `_build_id`. -/
def mkManualEvent (entry : PyVal) (name : String) (url : Option String) : Event :=
  let sourceV := orPy (pyGet entry "source") (.str "manual")
  let source := match sourceV with | .str s => s | v => pyStrRepr v
  let localDateV := pyGet entry "localDate"
  let localDate := asOptStr localDateV
  let idV := pyGet entry "id"
  let eventId :=
    if pyTruthy idV then (match idV with | .str s => s | v => pyStrRepr v)
    else buildId source url name localDate
  { id := eventId
    name := name
    url := url
    localDate := localDate
    localTime := asOptStr (pyGet entry "localTime")
    dateTBA := !pyTruthy localDateV
    timeTBA := !pyTruthy (pyGet entry "localTime")
    status := asOptStr (pyGet entry "status")
    image := asOptStr (pyGet entry "image")
    priceMin := asOptNum (pyGet entry "priceMin")
    priceMax := asOptNum (pyGet entry "priceMax")
    currency := asOptStr (pyGet entry "currency")
    genre := Option.none
    subGenre := Option.none
    segment := Option.none
    venue := match pyGet entry "venue" with | .dict kvs => .dict kvs | _ => .dict []
    source := source }

/-- One entry of the manual-events list. -/
def entryToEvent (entry : PyVal) : Except Unit (Option Event) :=
  match entry with
  | .dict _ => do
    let name ← cleanNamePy (pyGet entry "name")
    if name = "" then return Option.none
    let url ← canonicalizePy (pyGet entry "url")
    return some (mkManualEvent entry name url)
  | _ => .ok Option.none

def entriesToEvents : List PyVal → Except Unit (List Event)
  | [] => .ok []
  | e :: rest => do
    match ← entryToEvent e with
    | some ev => return ev :: (← entriesToEvents rest)
    | Option.none => entriesToEvents rest

/-- `_load_manual_events`: `payload = none` covers both a missing file and a
`json.loads` failure; a non-list payload yields no events; non-dict entries
and entries whose cleaned name is empty are skipped. -/
def loadManualEvents (payload : Option PyVal) : Except Unit (List Event) :=
  match payload with
  | Option.none => .ok []
  | some p =>
    match p with
    | .list entries => entriesToEvents entries
    | _ => .ok []

/-! ## `scrape_all_sources`: global dedup and sort -/

/-- The dedup key: `"{source}|{canonical url}"` when the canonicalized url is
non-empty, else `"{source}|id:{id}"`. -/
def eventKey (ev : Event) : String :=
  let cu := canonicalizeStr (ev.url.getD "")
  if cu ≠ "" then ev.source ++ "|" ++ cu else ev.source ++ "|id:" ++ ev.id

/-- `unique[key] = event` on an insertion-ordered dict. -/
def dictUpd (m : List (String × Event)) (k : String) (v : Event) : List (String × Event) :=
  if m.any (fun p => p.1 == k) then m.map (fun p => if p.1 == k then (k, v) else p)
  else m ++ [(k, v)]

def buildUnique (events : List Event) : List (String × Event) :=
  events.foldl (fun m e => dictUpd m (eventKey e) e) []

/-- The sort key `e.get("localDate") or "9999-12-31"`. -/
def sortKeyOf (ev : Event) : String :=
  match ev.localDate with
  | some d => if d = "" then "9999-12-31" else d
  | Option.none => "9999-12-31"

/-- Python string `<=` (code-point lexicographic). -/
def strLeL : List Char → List Char → Bool
  | [], _ => true
  | _ :: _, [] => false
  | a :: xs, b :: ys =>
    if a.toNat < b.toNat then true
    else if b.toNat < a.toNat then false
    else strLeL xs ys

def pyStrLe (a b : String) : Bool := strLeL a.data b.data

/-- Stable ascending insertion by `sortKeyOf` (the semantics of Python's
stable `sorted`). -/
def insertAsc (x : Event) : List Event → List Event
  | [] => [x]
  | y :: ys =>
    if pyStrLe (sortKeyOf y) (sortKeyOf x) then y :: insertAsc x ys
    else x :: y :: ys

def sortByDate (l : List Event) : List Event :=
  l.foldl (fun acc x => insertAsc x acc) []

/-- The dedup-then-sort tail of `scrape_all_sources` applied to the
concatenated event list. -/
def aggregateCore (events : List Event) : List Event :=
  sortByDate ((buildUnique events).map (·.2))

/-- `scrape_all_sources`: the per-venue scraper outputs (a network effect)
enter as `scraped`; manual events are appended, then the aggregate is
deduplicated and sorted.  A loader exception propagates. -/
def scrapeAllSources (scraped : List Event) (manualPayload : Option PyVal) :
    Except Unit (List Event) :=
  (loadManualEvents manualPayload).map (fun ms => aggregateCore (scraped ++ ms))

/-! ## `_discover_event_links` -/

/-- A fetched listing page as `_discover_event_links` consumes it:
`anchorsResolved` are the `urljoin(listing_url, a["href"])` values of its
anchors; `patternMatches`/`relMatches` are, per include pattern, the raw
regex matches of the script-scan and quoted-relative-path passes over the
decoded body (the pattern-parametrised regexes modelled at the extraction
boundary; every use site re-filters their output); `decodedHtml` is
`html.replace("\\/", "/")`, scanned directly for Ticketmaster event URLs. -/
structure ListingPage where
  anchorsResolved : List String
  patternMatches : String → List String
  relMatches : String → List String
  decodedHtml : String

def tmAllowed (c : Char) : Bool :=
  !(c = '"' || c = '\'' || c = ' ' || c = '<' || c = '>' || c = '(' || c = ')')

/-- `A ≠ ∅`, `"/event/"`, `B ≠ ∅` split of the allowed-character run (the
greedy backtracking of `[^…]+/event/[^…]+` always consumes the whole run
when such a split exists). -/
def hasEventSplitGo : Nat → List Char → Bool
  | _, [] => false
  | i, c :: rest =>
    (decide (1 ≤ i) && "/event/".data.isPrefixOf (c :: rest) &&
      decide (8 ≤ (c :: rest).length)) || hasEventSplitGo (i + 1) rest

def hasEventSplit (body : List Char) : Bool := hasEventSplitGo 0 body

/-- One attempted match of one scheme alternative at position `i`. -/
def tmTryPre (l : List Char) (i : Nat) (pre : List Char) : Option (List Char × Nat) :=
  if pre.isPrefixOf (l.drop i) then
    let start := i + pre.length
    let r := runLen tmAllowed l start
    let body := (l.drop start).take r
    if hasEventSplit body then some (pre ++ body, start + r) else Option.none
  else Option.none

/-- One attempted match of the Ticketmaster URL regex at position `i`
(`https` branch first, as the greedy `s?` does). -/
def tmMatchAt (l : List Char) (i : Nat) : Option (List Char × Nat) :=
  match tmTryPre l i "https://www.ticketmaster.com/".data with
  | some m => some m
  | Option.none => tmTryPre l i "http://www.ticketmaster.com/".data

def tmScanGo (l : List Char) : Nat → Nat → List String
  | 0, _ => []
  | fuel + 1, i =>
    if l.length < i then []
    else
      match tmMatchAt l i with
      | some (m, e) => String.mk m :: tmScanGo l fuel (max e (i + 1))
      | Option.none => tmScanGo l fuel (i + 1)

/-- `re.findall` of the Ticketmaster event-URL pattern over the decoded
body. -/
def tmScan (s : String) : List String := tmScanGo s.data (s.data.length + 1) 0

/-- The fragment/trailing-slash normalization `href.split("#")[0].rstrip("/")`
applied to every discovered link. -/
def normalizeLink (s : String) : String :=
  String.mk (rstripL ['/'] (s.data.takeWhile (· ≠ '#')))

/-- The same-site-or-trusted-ticket-host check of `_discover_event_links`. -/
def allowUrl (baseNetloc : String) (cand : String) : Bool :=
  let host := String.mk (toLowerL (netlocOf cand).data)
  host == String.mk (toLowerL baseNetloc.data) ||
    TICKET_HOST_HINTS.any (fun h => containsSub h.data host.data)

/-- `_discover_event_links` over a fetched listing page (an unfetchable page
yields no links before this function is reached). -/
def discoverEventLinks (pd : ListingPage) (listingUrl : String)
    (includePatterns : List String) : List String :=
  let baseNetloc := netlocOf listingUrl
  let pass1 := pd.anchorsResolved.filter (fun h =>
    allowUrl baseNetloc h && includePatterns.any (fun p => containsSub p.data h.data) &&
      looksLikeEventDetailUrl h)
  let pass2 := (includePatterns.map (fun p =>
    ((pd.patternMatches p).map (urljoin listingUrl)).filter (fun h =>
      allowUrl baseNetloc h && looksLikeEventDetailUrl h))).flatten
  let pass3 := (includePatterns.map (fun p =>
    ((pd.relMatches p).map (urljoin listingUrl)).filter (fun h =>
      allowUrl baseNetloc h && looksLikeEventDetailUrl h))).flatten
  let pass4 := ((tmScan pd.decodedHtml).map (urljoin listingUrl)).filter
    looksLikeEventDetailUrl
  dedupKeepFirst ((pass1 ++ pass2 ++ pass3 ++ pass4).map normalizeLink)

/-! ## Well-formedness predicates for manual-event records -/

/-- A loose value to which the loader may apply string methods without
raising: a string, or anything falsy. -/
def strSafe : PyVal → Bool
  | .str _ => true
  | v => !pyTruthy v

/-- A manual entry the loader can process without raising: only the `name`
and `url` fields ever receive string methods. -/
def manualEntryWf : PyVal → Bool
  | .dict kvs => strSafe (pyGet (.dict kvs) "name") && strSafe (pyGet (.dict kvs) "url")
  | _ => true

/-- A manual entry that yields an event: a record whose cleaned name is
non-empty. -/
def manualEntryAdmissible : PyVal → Bool
  | .dict kvs =>
    match cleanNamePy (pyGet (.dict kvs) "name") with
    | .ok n => n ≠ ""
    | .error _ => false
  | _ => false

def isListPy : PyVal → Bool
  | .list _ => true
  | _ => false

/-- Manual payload whose single record has the falsy-but-non-null date `""`. -/
def c2CexPayload : PyVal :=
  .list [.dict [("name", .str "A Show"), ("localDate", .str "")]]

/-- A well-formed manual record used to instantiate `tba_mirrors_nullness`. -/
def c2WitEntry : PyVal :=
  .dict [("name", .str "Radio Birds"), ("localDate", .str "2025-03-14"),
    ("localTime", .str "19:30")]

/-! ## A concrete fetched page exercising the free-text pipeline -/

def blankPage : PageData :=
  { scripts := [], text := "", ogTitle := Option.none, twitterTitle := Option.none,
    h1 := Option.none, titleTag := Option.none, ogImage := Option.none,
    twitterImage := Option.none, itempropImage := Option.none, imgs := [],
    anchors := [], ticketMatches := [], rawHtml := "" }

/-- A detail page with no structured data: an `og:title`, a date, a doors
time and a ticket price in the visible text. -/
def demoPage : PageData :=
  { blankPage with ogTitle := some "Radio Birds Live", text := "Friday, March 14, 2025 doors 7:30 pm tickets $15" }

def demoUrl : String := "https://harlows.com/event/radio-birds/"

def demoEnv : Env :=
  { fetch := fun u => if u = demoUrl then some demoPage else Option.none,
    parseIsoStr := fun _ => (Option.none, Option.none),
    today := (2025, 6, 15) }

/-- The event the resolver produces for `demoPage`. -/
def demoEv : Event :=
  { id := buildId "harlows" (some "https://harlows.com/event/radio-birds") "Radio Birds Live" (some "2025-03-14")
    name := "Radio Birds Live"
    url := some "https://harlows.com/event/radio-birds"
    localDate := some "2025-03-14"
    localTime := some "19:30"
    dateTBA := false
    timeTBA := false
    status := Option.none
    image := Option.none
    priceMin := some 15
    priceMax := some 15
    currency := some "USD"
    genre := Option.none
    subGenre := Option.none
    segment := Option.none
    venue := knownVenueOr "harlows"
    source := "harlows" }

/-- Manual payload with an inverted price pair, copied verbatim. -/
def c6CexPayload : PyVal :=
  .list [.dict [("name", .str "A Show"), ("priceMin", .num 50), ("priceMax", .num 10)]]

/-- A structured-data candidate with a type but no name at all. -/
def c10Cand : PyVal := .dict [("@type", .str "Event")]

def c10Page : PageData :=
  { blankPage with scripts := [some c10Cand] }

def c10Url : String := "https://harlows.com/event/mystery/"

def c10Env : Env :=
  { fetch := fun u => if u = c10Url then some c10Page else Option.none,
    parseIsoStr := fun _ => (Option.none, Option.none),
    today := (2025, 6, 15) }

/-- The event produced for `c10Page`: the placeholder name, the fallback
page url, the static venue record, no date and no prices. -/
def c10Ev : Event :=
  { id := buildId "harlows" (some "https://harlows.com/event/mystery") "Untitled Show" Option.none
    name := "Untitled Show"
    url := some "https://harlows.com/event/mystery"
    localDate := Option.none
    localTime := Option.none
    dateTBA := true
    timeTBA := true
    status := Option.none
    image := Option.none
    priceMin := Option.none
    priceMax := Option.none
    currency := Option.none
    genre := Option.none
    subGenre := Option.none
    segment := Option.none
    venue := .dict [("name", .str "Harlow's"), ("address", .str "2708 J St"),
      ("city", .str "Sacramento"), ("state", .str "CA"), ("postalCode", .str "95816")]
    source := "harlows" }

/-- A detail page whose structured candidate has no `startDate` while the
visible text does carry a date. -/
def c1Page : PageData :=
  { blankPage with scripts := [some (.dict [("@type", .str "Event"), ("name", .str "Mystery Night")])], text := "Friday, March 14, 2025" }

def c1Url : String := "https://harlows.com/event/mystery-night/"

def c1Env : Env :=
  { fetch := fun u => if u = c1Url then some c1Page else Option.none,
    parseIsoStr := fun _ => (Option.none, Option.none),
    today := (2025, 6, 15) }

def c1WitPage : PageData :=
  { blankPage with ogTitle := some "Quiet Night" }

def c1WitUrl : String := "https://harlows.com/event/quiet-night/"

def c1WitEnv : Env :=
  { fetch := fun u => if u = c1WitUrl then some c1WitPage else Option.none,
    parseIsoStr := fun _ => (Option.none, Option.none),
    today := (2025, 6, 15) }

/-- The event produced for `c1WitPage`. -/
def c1WitEv : Event :=
  { id := buildId "harlows" (some "https://harlows.com/event/quiet-night") "Quiet Night" Option.none
    name := "Quiet Night"
    url := some "https://harlows.com/event/quiet-night"
    localDate := Option.none
    localTime := Option.none
    dateTBA := true
    timeTBA := true
    status := Option.none
    image := Option.none
    priceMin := Option.none
    priceMax := Option.none
    currency := some "USD"
    genre := Option.none
    subGenre := Option.none
    segment := Option.none
    venue := knownVenueOr "harlows"
    source := "harlows" }

/-- A page whose only price lead is a ticket anchor carrying a query
string. -/
def c4Page : PageData :=
  { blankPage with ogTitle := some "Velvet Teen", anchors := [{ text := "Buy Tickets", href := "https://www.etix.com/ticket/p/123?pk=1" }] }

def c4Url : String := "https://harlows.com/event/velvet-teen/"

def c4Env : Env :=
  { fetch := fun u => if u = c4Url then some c4Page else Option.none,
    parseIsoStr := fun _ => (Option.none, Option.none),
    today := (2025, 6, 15) }

/-! ## Claim C5: shapes of localDate and localTime

`isIsoDateP` and `isHHMMp` render the spec's words — a well-formed ISO
calendar date `YYYY-MM-DD`, a 24-hour `HH:MM` — for comparison with what
the code produces. -/

def dvChar (c : Char) : Nat := c.toNat - 48

/-- Spec-side: the string is `date(y, m, d).isoformat()` of a valid date. -/
def isIsoDateP (s : String) : Prop :=
  ∃ y m d, validDate y m d = true ∧ s = isoOfYMD y m d

def timeFmt (h mi : Nat) : String := String.mk (fmtMin2 h ++ ':' :: fmtMin2 mi)

/-- Spec-side: a well-formed 24-hour `HH:MM` string. -/
def isHHMMp (t : String) : Prop :=
  ∃ h mi, h ≤ 23 ∧ mi ≤ 59 ∧ t = timeFmt h mi

/-- A page whose text announces `doors at 13 pm`. -/
def c5Page : PageData :=
  { blankPage with ogTitle := some "Moon Duo", text := "doors at 13 pm" }

def c5Url : String := "https://harlows.com/event/moon-duo/"

def c5Env : Env :=
  { fetch := fun u => if u = c5Url then some c5Page else Option.none,
    parseIsoStr := fun _ => (Option.none, Option.none),
    today := (2025, 6, 15) }

/-! ## Claim C7: the aggregator's dedup and sort -/

/-- Dict lookup on the insertion-ordered association list. -/
def findVal (m : List (String × Event)) (k : String) : Option Event :=
  (m.find? (fun p => p.1 == k)).map (·.2)

/-- The last event of the list whose dedup key is `k`. -/
def lastWith (k : String) : List Event → Option Event
  | [] => Option.none
  | e :: rest =>
    match lastWith k rest with
    | some r => some r
    | Option.none => if eventKey e = k then some e else Option.none

/-- The adjacent-sorted relation of the output order. -/
def evLe (a b : Event) : Prop := pyStrLe (sortKeyOf a) (sortKeyOf b) = true

def c7Jan : Event :=
  { id := "j", name := "Jan Show", url := some "https://venue.com/event/jan",
    localDate := some "2025-01-01", localTime := Option.none, dateTBA := false,
    timeTBA := true, status := Option.none, image := Option.none,
    priceMin := Option.none, priceMax := Option.none, currency := Option.none,
    genre := Option.none, subGenre := Option.none, segment := Option.none,
    venue := .dict [], source := "manual" }

def c7May : Event :=
  { c7Jan with id := "m", name := "May Show", url := some "https://venue.com/event/may", localDate := some "2025-05-01" }

def c7Null : Event :=
  { c7Jan with id := "n", name := "TBA Show", url := some "https://venue.com/event/tba", localDate := Option.none, dateTBA := true }

/-- A listing whose only anchor passes the looks-like test with its trailing
slash but whose normalization ends in `-events`. -/
def c8Listing : ListingPage :=
  { anchorsResolved := ["https://venue.com/events/foo-events/"],
    patternMatches := fun _ => [], relMatches := fun _ => [], decodedHtml := "" }

/-- C3 (counterexample): `_clean_event_name` is not idempotent.  On
`"Events - Events - Foo"` one application yields `"Events - Foo"` (the anchored
prefix regex strips a single `"Events - "` layer), and a second application
strips another layer, yielding `"Foo"`. -/
theorem clean_event_name_not_idempotent :
    cleanEventName (cleanEventName "Events - Events - Foo") ≠
      cleanEventName "Events - Events - Foo" := by
  decide

/-- C3 (amended): `_clean_event_name` is idempotent on every input whose
cleaned value is a fixed point of each cleaning stage (no double-escaped HTML
entity, no residual `events?-` prefix, no collapsible whitespace or boundary
`-`/`|`, no `" | "` separator, and no generic right-hand `" - "` segment);
the counterexample shows a residual prefix defeats idempotence. -/
theorem clean_event_name_idempotent_of_stable (x : String)
    (h : cleanStagesFix (cleanEventName x)) :
    cleanEventName (cleanEventName x) = cleanEventName x := by
  obtain ⟨h1, h2, h3, h4, h5⟩ := h
  generalize cleanEventName x = y at *
  obtain ⟨d⟩ := y
  simp only [String.data] at h1 h2 h3 h4 h5
  show String.mk (cleanL d) = String.mk d
  unfold cleanL
  rw [h1]
  by_cases hnil : d = []
  · simp [hnil]
  · simp only [if_neg hnil, h2, h3, h4]
    unfold dashRightGeneric at h5
    simp only [String.data] at h5
    cases e : splitFirstL " - ".data d with
    | none => rfl
    | some p =>
      rw [e] at h5
      have h5' : GENERIC_EVENT_TITLES.contains
          (String.mk (toLowerL (stripWsL p.2))) = false := h5
      show String.mk (if GENERIC_EVENT_TITLES.contains
          (String.mk (toLowerL (stripWsL p.2))) = true then stripWsL p.1 else d) =
        String.mk d
      rw [h5']
      simp

/-- C3 (witness for the amended theorem at a concrete input). -/
theorem clean_event_name_idempotent_witness :
    cleanEventName (cleanEventName "Radio Birds Live") = cleanEventName "Radio Birds Live" :=
  clean_event_name_idempotent_of_stable "Radio Birds Live"
    ⟨by decide, by decide, by decide, by decide, by decide⟩

/-! ## Characterization lemmas for the event builders -/

@[simp] theorem exceptBind_ok {α β : Type} (a : α) (f : α → Except Unit β) :
    (Except.ok a >>= f) = f a := rfl

@[simp] theorem exceptBind_error {α β : Type} (e : Unit) (f : α → Except Unit β) :
    ((Except.error e : Except Unit α) >>= f) = Except.error e := rfl

@[simp] theorem exceptMap_ok {α β : Type} (f : α → β) (a : α) :
    (f <$> (Except.ok a : Except Unit α)) = Except.ok (f a) := rfl

@[simp] theorem exceptMap_error {α β : Type} (f : α → β) (e : Unit) :
    (f <$> (Except.error e : Except Unit α)) = Except.error e := rfl

@[simp] theorem exceptPure_eq {α : Type} (a : α) :
    (pure a : Except Unit α) = Except.ok a := rfl

theorem strSafe_strOrEmpty {v : PyVal} (h : strSafe v = true) :
    ∃ s, strOrEmpty v = .ok s := by
  cases v with
  | str s =>
    by_cases hs : s = ""
    · exact ⟨"", by simp [strOrEmpty, pyTruthy, hs]⟩
    · exact ⟨s, by simp [strOrEmpty, pyTruthy, hs]⟩
  | none => exact ⟨"", rfl⟩
  | bool b => exact ⟨"", by simp_all [strSafe, strOrEmpty]⟩
  | num q => exact ⟨"", by simp_all [strSafe, strOrEmpty]⟩
  | list xs => exact ⟨"", by simp_all [strSafe, strOrEmpty]⟩
  | dict kvs => exact ⟨"", by simp_all [strSafe, strOrEmpty]⟩

theorem strSafe_cleanNamePy {v : PyVal} (h : strSafe v = true) :
    ∃ n, cleanNamePy v = .ok n := by
  obtain ⟨s, hs⟩ := strSafe_strOrEmpty h
  exact ⟨cleanEventName s, by simp [cleanNamePy, hs, Except.map]⟩

theorem strSafe_canonicalizePy {v : PyVal} (h : strSafe v = true) :
    ∃ u, canonicalizePy v = .ok u := by
  cases v with
  | str s => exact ⟨some (canonicalizeStr s), rfl⟩
  | none => exact ⟨Option.none, rfl⟩
  | bool b => exact ⟨Option.none, by simp_all [strSafe, canonicalizePy]⟩
  | num q => exact ⟨Option.none, by simp_all [strSafe, canonicalizePy]⟩
  | list xs => exact ⟨Option.none, by simp_all [strSafe, canonicalizePy]⟩
  | dict kvs => exact ⟨Option.none, by simp_all [strSafe, canonicalizePy]⟩

theorem entryToEvent_inv {entry : PyVal} {ev : Event}
    (h : entryToEvent entry = .ok (some ev)) :
    ∃ name url, cleanNamePy (pyGet entry "name") = .ok name ∧ name ≠ "" ∧
      canonicalizePy (pyGet entry "url") = .ok url ∧ ev = mkManualEvent entry name url := by
  cases entry with
  | dict kvs =>
    cases hc : cleanNamePy (pyGet (.dict kvs) "name") with
    | error e => rw [entryToEvent] at h; rw [hc] at h; simp at h
    | ok name =>
      rw [entryToEvent] at h
      rw [hc] at h
      by_cases hn : name = ""
      · simp [hn] at h
      · cases hu : canonicalizePy (pyGet (.dict kvs) "url") with
        | error e => rw [hu] at h; simp [hn] at h
        | ok url =>
          rw [hu] at h
          simp [hn] at h
          exact ⟨name, url, rfl, hn, rfl, h.symm⟩
  | none => simp [entryToEvent] at h
  | bool b => simp [entryToEvent] at h
  | num q => simp [entryToEvent] at h
  | str s => simp [entryToEvent] at h
  | list xs => simp [entryToEvent] at h

theorem entryToEvent_wf {entry : PyVal} (h : manualEntryWf entry = true) :
    (manualEntryAdmissible entry = true →
      ∃ ev, entryToEvent entry = .ok (some ev) ∧ ev.name ≠ "") ∧
    (manualEntryAdmissible entry = false → entryToEvent entry = .ok Option.none) := by
  cases entry with
  | dict kvs =>
    simp only [manualEntryWf, Bool.and_eq_true] at h
    obtain ⟨n, hn⟩ := strSafe_cleanNamePy h.1
    obtain ⟨u, hu⟩ := strSafe_canonicalizePy h.2
    by_cases hne : n = ""
    · constructor
      · intro hadm
        rw [manualEntryAdmissible, hn] at hadm
        simp [hne] at hadm
      · intro _
        rw [entryToEvent, hn]
        simp [hne]
    · constructor
      · intro _
        refine ⟨mkManualEvent (.dict kvs) n u, ?_, ?_⟩
        · rw [entryToEvent, hn, hu]
          simp [hne]
        · simp [mkManualEvent, hne]
      · intro hadm
        rw [manualEntryAdmissible, hn] at hadm
        simp [hne] at hadm
  | none => simp [manualEntryAdmissible, entryToEvent]
  | bool b => simp [manualEntryAdmissible, entryToEvent]
  | num q => simp [manualEntryAdmissible, entryToEvent]
  | str s => simp [manualEntryAdmissible, entryToEvent]
  | list xs => simp [manualEntryAdmissible, entryToEvent]

theorem entriesToEvents_wf {entries : List PyVal}
    (h : ∀ e ∈ entries, manualEntryWf e = true) :
    ∃ evs, entriesToEvents entries = .ok evs ∧
      evs.length = (entries.filter manualEntryAdmissible).length ∧
      ∀ ev ∈ evs, ev.name ≠ "" := by
  induction entries with
  | nil => exact ⟨[], rfl, rfl, by simp⟩
  | cons e rest ih =>
    obtain ⟨evs, hevs, hlen, hname⟩ := ih (fun x hx => h x (List.mem_cons_of_mem _ hx))
    have hwf := h e (List.mem_cons_self _ _)
    have hw := entryToEvent_wf hwf
    by_cases hadm : manualEntryAdmissible e = true
    · obtain ⟨ev, hok, hne⟩ := hw.1 hadm
      refine ⟨ev :: evs, ?_, ?_, ?_⟩
      · rw [entriesToEvents, hok]
        simp [hevs]
      · simp [List.filter_cons, hadm, hlen]
      · intro x hx
        rcases List.mem_cons.mp hx with hx | hx
        · exact hx ▸ hne
        · exact hname x hx
    · have hok := hw.2 (by simpa using hadm)
      refine ⟨evs, ?_, ?_, hname⟩
      · rw [entriesToEvents, hok]
        simp [hevs]
      · simp [List.filter_cons, hadm, hlen]

/-! ## Claim C9: the manual-events loader -/

/-- C9 (counterexample): the loader can raise.  A JSON list containing the
record `{"name": 5}` is a dict entry, so it is not skipped; `_clean_event_name`
then calls `.strip()` on the integer `5` and the resulting `AttributeError`
propagates out of `_load_manual_events`. -/
theorem load_manual_events_can_raise :
    loadManualEvents (some (.list [.dict [("name", .num 5)]])) = .error () := by
  rfl

/-- C9 (amended): the loader never raises provided every record's `name` and
`url` values are strings or falsy.  A missing or unparseable file and a
non-list payload yield the empty list; non-dict entries and entries whose
cleaned name is empty are skipped (exactly the admissible entries survive,
each with a non-empty name); a record with a truthy non-string `name` or
`url` (e.g. `name: 5`) raises instead. -/
theorem load_manual_events_total (payload : Option PyVal)
    (hwf : ∀ p entries, payload = some p → p = .list entries →
      ∀ e ∈ entries, manualEntryWf e = true) :
    (payload = Option.none → loadManualEvents payload = .ok []) ∧
    (∀ p, payload = some p → isListPy p = false → loadManualEvents payload = .ok []) ∧
    (∀ entries, payload = some (.list entries) →
      ∃ evs, loadManualEvents payload = .ok evs ∧
        evs.length = (entries.filter manualEntryAdmissible).length ∧
        ∀ ev ∈ evs, ev.name ≠ "") := by
  refine ⟨?_, ?_, ?_⟩
  · intro h
    rw [h]
    rfl
  · intro p hp hl
    rw [hp]
    cases p <;> simp_all [isListPy, loadManualEvents]
  · intro entries hp
    rw [hp]
    exact entriesToEvents_wf (hwf _ entries hp rfl)

/-- C9 (witness): a concrete payload with a skipped non-dict entry, a skipped
empty-name record, and one kept record. -/
theorem load_manual_events_total_witness :
    ∃ evs,
      loadManualEvents (some (.list [.num 3, .dict [("name", .str "  ")],
        .dict [("name", .str "Good Show"), ("url", .str "https://x.com/e/1?a#b")]])) = .ok evs ∧
      evs.length = ([PyVal.num 3, .dict [("name", .str "  ")],
        .dict [("name", .str "Good Show"), ("url", .str "https://x.com/e/1?a#b")]].filter
          manualEntryAdmissible).length ∧
      ∀ ev ∈ evs, ev.name ≠ "" :=
  (load_manual_events_total
    (some (.list [.num 3, .dict [("name", .str "  ")],
      .dict [("name", .str "Good Show"), ("url", .str "https://x.com/e/1?a#b")]]))
    (by intro p entries hp hl; cases hp; cases hl; decide)).2.2 _ rfl

/-! ## Characterization of `_normalize_event` and `_scrape_event_page` -/

theorem except_bind_inv {α β : Type} {m : Except Unit α} {f : α → Except Unit β}
    {b : β} (h : (m >>= f) = .ok b) : ∃ a, m = .ok a ∧ f a = .ok b := by
  cases m with
  | ok a => exact ⟨a, rfl, by simpa using h⟩
  | error e => simp at h

theorem normalizeEvent_inv {pio : String → Option String × Option String}
    {source : String} {event : PyVal} {fb : Option String} {ev : Event}
    (h : normalizeEvent pio source event fb = .ok ev) :
    ∃ name url dp vn st ci sta po,
      cleanNamePy (orPy (pyGet event "name") (.str "Untitled Show")) = .ok name ∧
      canonicalizePy (orPy (pyGet event "url") (optStrToPy fb)) = .ok url ∧
      parseIsoPy pio (pyGet event "startDate") = .ok dp ∧
      ev = mkNormalizedEvent source event name url dp vn st ci sta po := by
  rw [normalizeEvent] at h
  obtain ⟨name, hc, h⟩ := except_bind_inv h
  obtain ⟨url, hu, h⟩ := except_bind_inv h
  obtain ⟨dp, hd, h⟩ := except_bind_inv h
  obtain ⟨vn, hv, h⟩ := except_bind_inv h
  obtain ⟨st, h1, h⟩ := except_bind_inv h
  obtain ⟨ci, h2, h⟩ := except_bind_inv h
  obtain ⟨sta, h3, h⟩ := except_bind_inv h
  obtain ⟨po, h4, h⟩ := except_bind_inv h
  simp only [exceptPure_eq, Except.ok.injEq] at h
  exact ⟨name, url, dp, vn, st, ci, sta, po, hc, hu, hd, h.symm⟩

/-! ## Price facts -/

theorem foldl_min_le (x : ℚ) (xs : List ℚ) : xs.foldl min x ≤ x := by
  induction xs generalizing x with
  | nil => simp
  | cons y ys ih => exact le_trans (ih (min x y)) (min_le_left x y)

theorem le_foldl_max (x : ℚ) (xs : List ℚ) : x ≤ xs.foldl max x := by
  induction xs generalizing x with
  | nil => simp
  | cons y ys ih => exact le_trans (le_max_left x y) (ih (max x y))

/-- `_parse_price` never produces `priceMin > priceMax`. -/
theorem parsePrice_le (v : PyVal) :
    ∀ a b, (parsePrice v).1 = some a → (parsePrice v).2 = some b → a ≤ b := by
  intro a b ha hb
  cases v with
  | num q =>
    simp [parsePrice] at ha hb
    rw [← ha, ← hb]
  | bool c => simp [parsePrice] at ha hb; rw [← ha, ← hb]
  | str s =>
    rw [parsePrice] at ha hb
    cases hm : numbersIn s with
    | nil => rw [hm] at ha; simp at ha
    | cons x xs =>
      rw [hm] at ha hb
      simp at ha hb
      rw [← ha, ← hb]
      exact le_trans (foldl_min_le x xs) (le_foldl_max x xs)
  | none => simp [parsePrice] at ha
  | list xs => simp [parsePrice] at ha
  | dict kvs => simp [parsePrice] at ha

/-! ## Stage decomposition of `_scrape_event_page` -/

theorem constructEvent_inv {env : Env} {url source : String} {pd : PageData} {ev0 : Event}
    (h : constructEvent env url source pd = .ok (some ev0)) :
    (∃ cand, extractEventFromJsonld (parseJsonld pd.scripts) = some cand ∧
      normalizeEvent env.parseIsoStr source cand (some url) = .ok ev0) ∨
    (extractEventFromJsonld (parseJsonld pd.scripts) = Option.none ∧
      ∃ title, extractBestTitle pd = some title ∧
        ev0 = mkFreeTextEvent env url source pd title) := by
  rw [constructEvent] at h
  cases he : extractEventFromJsonld (parseJsonld pd.scripts) with
  | some cand =>
    rw [he] at h
    left
    refine ⟨cand, rfl, ?_⟩
    have h' : Except.map some (normalizeEvent env.parseIsoStr source cand (some url)) =
        Except.ok (some ev0) := h
    cases hn : normalizeEvent env.parseIsoStr source cand (some url) with
    | ok ev' => rw [hn] at h'; simp [Except.map] at h'; rw [h']
    | error e => rw [hn] at h'; simp [Except.map] at h'
  | none =>
    rw [he] at h
    right
    refine ⟨rfl, ?_⟩
    have h' : (match extractBestTitle pd with
      | Option.none => (.ok Option.none : Except Unit (Option Event))
      | some title => .ok (some (mkFreeTextEvent env url source pd title))) =
        .ok (some ev0) := h
    cases ht : extractBestTitle pd with
    | some title =>
      rw [ht] at h'
      simp at h'
      exact ⟨title, rfl, h'.symm⟩
    | none => rw [ht] at h'; simp at h' 

theorem rescueTitle_fields {url source : String} {ev ev' : Event}
    (h : rescueTitle url source ev = some ev') :
    ev'.url = ev.url ∧ ev'.localDate = ev.localDate ∧ ev'.localTime = ev.localTime ∧
    ev'.dateTBA = ev.dateTBA ∧ ev'.timeTBA = ev.timeTBA ∧
    ev'.priceMin = ev.priceMin ∧ ev'.priceMax = ev.priceMax ∧
    ev'.currency = ev.currency ∧ ev'.source = ev.source ∧
    (ev.id = buildId source ev.url ev.name ev.localDate →
      ev'.id = buildId source ev'.url ev'.name ev'.localDate) := by
  rw [rescueTitle] at h
  by_cases hg : isGenericTitle ev.name
  · rw [if_pos hg] at h
    cases ht : titleFromEventUrl url with
    | some derived =>
      rw [ht] at h
      by_cases hd : derived = "" || isGenericTitle derived
      · simp [hd] at h
      · simp only [hd, if_false, Option.some.injEq, Bool.false_eq_true] at h
        subst h
        simp
    | none => rw [ht] at h; simp at h
  · rw [if_neg hg] at h
    cases h
    simp

theorem rescueTitle_of_not_generic {url source : String} {ev : Event}
    (h : isGenericTitle ev.name = false) : rescueTitle url source ev = some ev := by
  simp [rescueTitle, h]

theorem imageStage_shape (pd : PageData) (ev : Event) :
    ∃ im, imageStage pd ev = { ev with image := im } := by
  by_cases hb : optTruthyB ev.image
  · exact ⟨ev.image, by simp [imageStage, hb]⟩
  · exact ⟨extractBestImageUrl (optTruthyList pd.ogImage ++ optTruthyList pd.twitterImage ++
      optTruthyList pd.itempropImage) pd.imgs (some ev.name), by simp [imageStage, hb]⟩

theorem dtBackfillStage_inv (env : Env) (pd : PageData) (ev : Event) :
    ∃ d t dB tB, dtBackfillStage env pd ev =
      { ev with localDate := d, localTime := t, dateTBA := dB, timeTBA := tB } ∧
      ((d = ev.localDate ∧ dB = ev.dateTBA) ∨ dB = d.isNone) ∧
      ((t = ev.localTime ∧ tB = ev.timeTBA) ∨ tB = t.isNone) ∧
      (optTruthyB ev.localDate = true → d = ev.localDate ∧ dB = ev.dateTBA) := by
  rw [dtBackfillStage]
  by_cases hd : optTruthyB ev.localDate
  · by_cases ht : optTruthyB ev.localTime
    · refine ⟨ev.localDate, ev.localTime, ev.dateTBA, ev.timeTBA, ?_, ?_, ?_, ?_⟩
      · simp [hd, ht]
      · exact Or.inl ⟨rfl, rfl⟩
      · exact Or.inl ⟨rfl, rfl⟩
      · exact fun _ => ⟨rfl, rfl⟩
    · refine ⟨ev.localDate, (extractDatetimeFromText env.today pd.text).2,
        ev.dateTBA, (extractDatetimeFromText env.today pd.text).2.isNone, ?_, ?_, ?_, ?_⟩
      · simp [hd, ht]
      · exact Or.inl ⟨rfl, rfl⟩
      · exact Or.inr rfl
      · exact fun _ => ⟨rfl, rfl⟩
  · by_cases ht : optTruthyB ev.localTime
    · refine ⟨(extractDatetimeFromText env.today pd.text).1, ev.localTime,
        (extractDatetimeFromText env.today pd.text).1.isNone, ev.timeTBA, ?_, ?_, ?_, ?_⟩
      · simp [hd, ht]
      · exact Or.inr rfl
      · exact Or.inl ⟨rfl, rfl⟩
      · intro hc; rw [hc] at hd; simp at hd
    · refine ⟨(extractDatetimeFromText env.today pd.text).1,
        (extractDatetimeFromText env.today pd.text).2,
        (extractDatetimeFromText env.today pd.text).1.isNone,
        (extractDatetimeFromText env.today pd.text).2.isNone, ?_, ?_, ?_, ?_⟩
      · simp [hd, ht]
      · exact Or.inr rfl
      · exact Or.inr rfl
      · intro hc; rw [hc] at hd; simp at hd

theorem crawlNested_inv {env : Env} {ev ev2 : Event} {turl : String} {links : List String}
    (h : crawlNested env ev turl links = some ev2) : ∃ b, ev2 = setPrice ev b := by
  induction links with
  | nil => simp [crawlNested] at h
  | cons href rest ih =>
    rw [crawlNested] at h
    cases hf : env.fetch (urljoin turl href) with
    | some npd =>
      rw [hf] at h
      by_cases hp : (ticketPagePrices npd).isEmpty
      · simp [hp] at h
        exact ih h
      · simp [hp] at h
        exact ⟨_, h.symm⟩
    | none => rw [hf] at h; exact ih h

theorem crawlTop_inv (env : Env) (ev : Event) (baseUrl : String) (links : List String) :
    crawlTop env ev baseUrl links = ev ∨
    ∃ b, crawlTop env ev baseUrl links = setPrice ev b := by
  induction links with
  | nil => exact Or.inl rfl
  | cons href rest ih =>
    rw [crawlTop]
    cases hf : env.fetch (urljoin baseUrl href) with
    | some tpd =>
      by_cases hp : (ticketPagePrices tpd).isEmpty
      · simp only [hp, Bool.not_true, Bool.false_eq_true, if_false]
        cases hn : crawlNested env ev (urljoin baseUrl href)
            ((dedupKeepFirst (findTicketLinks tpd.anchors ++
              ticketLinksFromHtml tpd.ticketMatches (urljoin baseUrl href))).take 3) with
        | some ev2 =>
          obtain ⟨b, hb⟩ := crawlNested_inv hn
          exact Or.inr ⟨b, hb ▸ rfl⟩
        | none => exact ih
      · simp only [hp]
        simp
    | none => exact ih

theorem priceStage_shape (env : Env) (pd : PageData) (url : String) (ev : Event) :
    ∃ u p q c, priceStage env pd url ev =
      { ev with url := u, priceMin := p, priceMax := q, currency := c } ∧
      ((u = ev.url ∧ p = ev.priceMin ∧ q = ev.priceMax ∧ c = ev.currency) ∨
        (u = ev.url ∧ ∃ b, p = some b ∧ q = some b) ∨
        (pageTicketLinks pd url ≠ [] ∧
          u = some (urljoin url ((pageTicketLinks pd url).headD "")) ∧
          (p = ev.priceMin ∧ q = ev.priceMax ∨ ∃ b, p = some b ∧ q = some b))) := by
  rw [priceStage]
  by_cases h0 : priceNeedy ev
  · simp only [h0, Bool.not_true, Bool.false_eq_true, if_false]
    by_cases h1 : (extractPricesFromJsonld (parseJsonld pd.scripts)).isEmpty
    · simp only [h1, Bool.not_true, Bool.false_eq_true, if_false]
      by_cases h2 : (extractTicketPricesFromText pd.text).isEmpty
      · simp only [h2, Bool.not_true, Bool.false_eq_true, if_false]
        by_cases h3 : (pageTicketLinks pd url).isEmpty
        · have h3' : pageTicketLinks pd url = [] := by
            cases hpt : pageTicketLinks pd url
            · rfl
            · rw [hpt] at h3; simp at h3
          simp only [h3', List.isEmpty_nil, Bool.not_true, Bool.false_eq_true, if_false,
            List.take_nil]
          exact ⟨ev.url, ev.priceMin, ev.priceMax, ev.currency, rfl,
            Or.inl ⟨rfl, rfl, rfl, rfl⟩⟩
        · have h3' : pageTicketLinks pd url ≠ [] := by
            intro hx; rw [hx] at h3; simp at h3
          have h3f : (pageTicketLinks pd url).isEmpty = false := by
            cases hpt : pageTicketLinks pd url
            · exact absurd hpt h3'
            · rfl
          simp only [h3f, Bool.not_false, if_true]
          rcases crawlTop_inv env { ev with url := some (urljoin url ((pageTicketLinks pd url).headD "")) }
              url ((pageTicketLinks pd url).take 5) with hc | ⟨b, hc⟩
          · exact ⟨some (urljoin url ((pageTicketLinks pd url).headD "")), ev.priceMin,
              ev.priceMax, ev.currency, by rw [hc], Or.inr (Or.inr ⟨h3', rfl, Or.inl ⟨rfl, rfl⟩⟩)⟩
          · refine ⟨some (urljoin url ((pageTicketLinks pd url).headD "")), some b, some b,
              (if optTruthyB ev.currency then ev.currency else some "USD"), ?_,
              Or.inr (Or.inr ⟨h3', rfl, Or.inr ⟨b, rfl, rfl⟩⟩)⟩
            rw [hc]
            rfl
      · simp only [h2, Bool.not_false, if_true]
        exact ⟨ev.url, some (minD (extractTicketPricesFromText pd.text)),
          some (minD (extractTicketPricesFromText pd.text)), _, rfl,
          Or.inr (Or.inl ⟨rfl, _, rfl, rfl⟩)⟩
    · simp only [h1, Bool.not_false, if_true]
      exact ⟨ev.url, some (minD (extractPricesFromJsonld (parseJsonld pd.scripts))),
        some (minD (extractPricesFromJsonld (parseJsonld pd.scripts))), _, rfl,
        Or.inr (Or.inl ⟨rfl, _, rfl, rfl⟩)⟩
  · simp only [h0]
    exact ⟨ev.url, ev.priceMin, ev.priceMax, ev.currency, by simp,
      Or.inl ⟨rfl, rfl, rfl, rfl⟩⟩

theorem zeroFixStage_shape (pd : PageData) (ev : Event) :
    ∃ p q, zeroFixStage pd ev = { ev with priceMin := p, priceMax := q } ∧
      ((p = ev.priceMin ∧ q = ev.priceMax) ∨ (p = Option.none ∧ q = Option.none)) := by
  rw [zeroFixStage]
  by_cases hz : (ev.priceMin == some 0 && ev.priceMax == some 0 && !looksFree pd.text) = true
  · rw [if_pos hz]
    exact ⟨Option.none, Option.none, rfl, Or.inr ⟨rfl, rfl⟩⟩
  · rw [if_neg hz]
    exact ⟨ev.priceMin, ev.priceMax, by simp, Or.inl ⟨rfl, rfl⟩⟩

theorem scrapeEventPage_inv {env : Env} {url source : String} {ev : Event}
    (h : scrapeEventPage env url source = .ok (some ev)) :
    ∃ pd ev0 ev1, env.fetch url = some pd ∧
      constructEvent env url source pd = .ok (some ev0) ∧
      rescueTitle url source ev0 = some ev1 ∧
      ev = zeroFixStage pd (priceStage env pd url
        (dtBackfillStage env pd (imageStage pd ev1))) := by
  rw [scrapeEventPage] at h
  cases hf : env.fetch url with
  | some pd =>
    rw [hf] at h
    obtain ⟨r, hr, h⟩ := except_bind_inv h
    cases r with
    | some ev0 =>
      cases hresc : rescueTitle url source ev0 with
      | some ev1 =>
        simp only [hresc, Except.ok.injEq, Option.some.injEq] at h
        exact ⟨pd, ev0, ev1, rfl, hr, hresc, h.symm⟩
      | none => simp [hresc] at h
    | none => simp at h
  | none => rw [hf] at h; simp at h

/-! ## Claim C2: the TBA flags mirror nullness -/

/-- C2 (amended): for every event the detail resolver returns, `dateTBA` is
true iff `localDate` is null and `timeTBA` is true iff `localTime` is null;
manual events instead set the flags from Python truthiness of the record
fields (so the equivalence can fail only on a non-null falsy value such as
`localDate: ""`). -/
theorem tba_mirrors_nullness :
    (∀ (env : Env) (url source : String) (ev : Event),
      scrapeEventPage env url source = .ok (some ev) →
        (ev.dateTBA = true ↔ ev.localDate = Option.none) ∧
        (ev.timeTBA = true ↔ ev.localTime = Option.none)) ∧
    (∀ (entry : PyVal) (ev : Event), entryToEvent entry = .ok (some ev) →
      ev.dateTBA = !pyTruthy (pyGet entry "localDate") ∧
      ev.timeTBA = !pyTruthy (pyGet entry "localTime")) := by
  constructor
  · intro env url source ev h
    obtain ⟨pd, ev0, ev1, hf, hcon, hresc, heq⟩ := scrapeEventPage_inv h
    have h0 : (ev0.dateTBA = ev0.localDate.isNone) ∧ (ev0.timeTBA = ev0.localTime.isNone) := by
      rcases constructEvent_inv hcon with ⟨cand, _, hnorm⟩ | ⟨_, title, _, hev0⟩
      · obtain ⟨name, url', dp, vn, st, ci, sta, po, _, _, _, hev0⟩ := normalizeEvent_inv hnorm
        subst hev0
        exact ⟨rfl, rfl⟩
      · subst hev0
        exact ⟨rfl, rfl⟩
    obtain ⟨hu1, hd1, ht1, hdb1, htb1, _, _, _, _, _⟩ := rescueTitle_fields hresc
    have h1 : (ev1.dateTBA = ev1.localDate.isNone) ∧ (ev1.timeTBA = ev1.localTime.isNone) := by
      rw [hdb1, htb1, hd1, ht1]
      exact h0
    obtain ⟨im, him⟩ := imageStage_shape pd ev1
    obtain ⟨d, t, dB, tB, hdt, hdc, htc, _⟩ := dtBackfillStage_inv env pd (imageStage pd ev1)
    obtain ⟨u, p, q, c, hps, _⟩ := priceStage_shape env pd url
      (dtBackfillStage env pd (imageStage pd ev1))
    obtain ⟨p2, q2, hzs, _⟩ := zeroFixStage_shape pd (priceStage env pd url
      (dtBackfillStage env pd (imageStage pd ev1)))
    rw [heq, hzs, hps, hdt]
    have hdb : dB = d.isNone := by
      rcases hdc with ⟨hde, hdf⟩ | hdg
      · rw [hde, hdf, him]
        exact h1.1
      · exact hdg
    have htb : tB = t.isNone := by
      rcases htc with ⟨hte, htf⟩ | htg
      · rw [hte, htf, him]
        exact h1.2
      · exact htg
    constructor
    · show dB = true ↔ d = Option.none
      rw [hdb]
      exact Option.isNone_iff_eq_none
    · show tB = true ↔ t = Option.none
      rw [htb]
      exact Option.isNone_iff_eq_none
  · intro entry ev h
    obtain ⟨name, url, _, _, _, hev⟩ := entryToEvent_inv h
    subst hev
    exact ⟨rfl, rfl⟩

/-- C2 (counterexample): a manual record with `localDate: ""` yields an event
whose `dateTBA` is true while `localDate` is the non-null string `""`, so
`dateTBA == (localDate is null)` fails for events loaded from the
manual-events file (`_load_manual_events` keeps the value verbatim but sets
the flag from truthiness). -/
theorem tba_mirrors_nullness_cex :
    Except.map (List.map (fun ev => (ev.dateTBA, ev.localDate)))
        (loadManualEvents (some c2CexPayload)) =
      .ok [(true, some "")] ∧ (some "" : Option String) ≠ Option.none := by
  constructor
  · rfl
  · decide

theorem tba_mirrors_nullness_witness :
    (mkManualEvent c2WitEntry "Radio Birds" Option.none).dateTBA
        = !pyTruthy (pyGet c2WitEntry "localDate") ∧
    (mkManualEvent c2WitEntry "Radio Birds" Option.none).timeTBA
        = !pyTruthy (pyGet c2WitEntry "localTime") :=
  tba_mirrors_nullness.2 c2WitEntry
    (mkManualEvent c2WitEntry "Radio Birds" Option.none) (by rfl)

/-! ## Claim C6: ordered price bounds -/

/-- C6 (amended): events returned by the detail resolver always satisfy
`priceMin ≤ priceMax` when both bounds are present (structured offers go
through `_parse_price`, whose min/max over the found numbers are ordered,
and every backfill sets both bounds to one value); manual events instead
copy `priceMin` and `priceMax` verbatim from the record, so an inverted
manual pair survives. -/
theorem price_bounds_ordered :
    (∀ (env : Env) (url source : String) (ev : Event),
      scrapeEventPage env url source = .ok (some ev) →
        ∀ a b : ℚ, ev.priceMin = some a → ev.priceMax = some b → a ≤ b) ∧
    (∀ (entry : PyVal) (ev : Event), entryToEvent entry = .ok (some ev) →
      ev.priceMin = asOptNum (pyGet entry "priceMin") ∧
      ev.priceMax = asOptNum (pyGet entry "priceMax")) := by
  constructor
  · intro env url source ev h a b ha hb
    obtain ⟨pd, ev0, ev1, hf, hcon, hresc, heq⟩ := scrapeEventPage_inv h
    have h0 : ∀ a b : ℚ, ev0.priceMin = some a → ev0.priceMax = some b → a ≤ b := by
      rcases constructEvent_inv hcon with ⟨cand, _, hnorm⟩ | ⟨_, title, _, hev0⟩
      · obtain ⟨name, url', dp, vn, st, ci, sta, po, _, _, _, hev0⟩ := normalizeEvent_inv hnorm
        subst hev0
        intro a b ha hb
        exact parsePrice_le _ a b ha hb
      · subst hev0
        intro a b ha hb
        exact Option.noConfusion ha
    obtain ⟨_, _, _, _, _, hp1, hq1, _, _, _⟩ := rescueTitle_fields hresc
    obtain ⟨im, him⟩ := imageStage_shape pd ev1
    obtain ⟨d, t, dB, tB, hdt, _, _, _⟩ := dtBackfillStage_inv env pd (imageStage pd ev1)
    obtain ⟨u, p, q, c, hps, hpd⟩ := priceStage_shape env pd url
      (dtBackfillStage env pd (imageStage pd ev1))
    obtain ⟨p2, q2, hzs, hzd⟩ := zeroFixStage_shape pd
      (priceStage env pd url (dtBackfillStage env pd (imageStage pd ev1)))
    have hXp : (dtBackfillStage env pd (imageStage pd ev1)).priceMin = ev0.priceMin := by
      rw [hdt, him]
      exact hp1
    have hXq : (dtBackfillStage env pd (imageStage pd ev1)).priceMax = ev0.priceMax := by
      rw [hdt, him]
      exact hq1
    rw [heq, hzs] at ha hb
    have ha2 : p2 = some a := ha
    have hb2 : q2 = some b := hb
    rcases hzd with ⟨hp2, hq2⟩ | ⟨hp2, hq2⟩
    · have hap : p = some a := by
        have := hp2.symm.trans ha2
        rw [hps] at this
        exact this
      have hbq : q = some b := by
        have := hq2.symm.trans hb2
        rw [hps] at this
        exact this
      have hcore : (p = (dtBackfillStage env pd (imageStage pd ev1)).priceMin ∧
          q = (dtBackfillStage env pd (imageStage pd ev1)).priceMax) ∨
          (∃ b0, p = some b0 ∧ q = some b0) := by
        rcases hpd with ⟨_, hp, hq, _⟩ | ⟨_, b0, hp, hq⟩ | ⟨_, _, hsub⟩
        · exact Or.inl ⟨hp, hq⟩
        · exact Or.inr ⟨b0, hp, hq⟩
        · rcases hsub with ⟨hp, hq⟩ | ⟨b0, hp, hq⟩
          · exact Or.inl ⟨hp, hq⟩
          · exact Or.inr ⟨b0, hp, hq⟩
      rcases hcore with ⟨hp, hq⟩ | ⟨b0, hp, hq⟩
      · refine h0 a b ?_ ?_
        · rw [← hXp, ← hp]
          exact hap
        · rw [← hXq, ← hq]
          exact hbq
      · rw [hp] at hap
        rw [hq] at hbq
        cases hap
        cases hbq
        exact le_refl a
    · rw [hp2] at ha2
      exact Option.noConfusion ha2
  · intro entry ev h
    obtain ⟨name, url, _, _, _, hev⟩ := entryToEvent_inv h
    subst hev
    exact ⟨rfl, rfl⟩

/-- C6 (counterexample): a manual record with `priceMin: 50, priceMax: 10`
survives the loader unchanged, so the aggregate contains an event with
`priceMin > priceMax`. -/
theorem price_bounds_ordered_cex :
    Except.map (List.map (fun ev => (ev.priceMin, ev.priceMax)))
        (loadManualEvents (some c6CexPayload)) = .ok [(some 50, some 10)] ∧
    ¬ ((50 : ℚ) ≤ 10) := by
  constructor
  · rfl
  · norm_num

set_option maxRecDepth 1000000 in
theorem price_bounds_ordered_witness :
    scrapeEventPage demoEnv demoUrl "harlows" = .ok (some demoEv) ∧
    demoEv.priceMin = some 15 ∧ demoEv.priceMax = some 15 ∧ (15 : ℚ) ≤ 15 :=
  ⟨by with_unfolding_all rfl, rfl, rfl,
    price_bounds_ordered.1 demoEnv demoUrl "harlows" demoEv
      (by with_unfolding_all rfl) 15 15 rfl rfl⟩

/-! ## Claim C10: the Untitled Show placeholder -/

/-- C10: `"Untitled Show"` is not a generic title, and whenever the page's
best structured-data candidate has a falsy `name`, the resolver still
returns an event, necessarily named `"Untitled Show"` (the `or` fallback of
`_normalize_event` combined with the generic-title rescue leaving
non-generic names alone). -/
theorem untitled_show_kept :
    isGenericTitle "Untitled Show" = false ∧
    (∀ (env : Env) (url source : String) (pd : PageData) (cand : PyVal) (ev : Event),
      env.fetch url = some pd →
      extractEventFromJsonld (parseJsonld pd.scripts) = some cand →
      pyTruthy (pyGet cand "name") = false →
      scrapeEventPage env url source = .ok (some ev) →
      ev.name = "Untitled Show") := by
  constructor
  · decide
  · intro env url source pd cand ev hf he hn h
    obtain ⟨pd', ev0, ev1, hf', hcon, hresc, heq⟩ := scrapeEventPage_inv h
    rw [hf] at hf'
    injection hf' with hpd
    subst hpd
    rcases constructEvent_inv hcon with ⟨cand', hc', hnorm⟩ | ⟨hnone, -⟩
    · rw [he] at hc'
      injection hc' with hcand
      subst hcand
      obtain ⟨name, url', dp, vn, st, ci, sta, po, hname, _, _, hev0⟩ := normalizeEvent_inv hnorm
      simp only [orPy, hn, Bool.false_eq_true, if_false] at hname
      have hcut : cleanNamePy (.str "Untitled Show") = .ok "Untitled Show" := by rfl
      rw [hcut] at hname
      injection hname with hname'
      have hev0name : ev0.name = "Untitled Show" := by
        rw [hev0]
        exact hname'.symm
      have hng : isGenericTitle ev0.name = false := by
        rw [hev0name]
        decide
      have hid : ev1 = ev0 := by
        have hr := @rescueTitle_of_not_generic url source ev0 hng
        rw [hr] at hresc
        injection hresc with h'
        exact h'.symm
      obtain ⟨im, him⟩ := imageStage_shape pd ev1
      obtain ⟨d, t, dB, tB, hdt, _, _, _⟩ := dtBackfillStage_inv env pd (imageStage pd ev1)
      obtain ⟨u, p, q, c, hps, _⟩ := priceStage_shape env pd url
        (dtBackfillStage env pd (imageStage pd ev1))
      obtain ⟨p2, q2, hzs, _⟩ := zeroFixStage_shape pd
        (priceStage env pd url (dtBackfillStage env pd (imageStage pd ev1)))
      rw [heq, hzs, hps, hdt, him]
      show ev1.name = "Untitled Show"
      rw [hid, hev0name]
    · rw [he] at hnone
      exact Option.noConfusion hnone

set_option maxRecDepth 1000000 in
theorem untitled_show_kept_witness :
    c10Env.fetch c10Url = some c10Page ∧
    extractEventFromJsonld (parseJsonld c10Page.scripts) = some c10Cand ∧
    pyTruthy (pyGet c10Cand "name") = false ∧
    scrapeEventPage c10Env c10Url "harlows" = .ok (some c10Ev) ∧
    c10Ev.name = "Untitled Show" :=
  ⟨rfl, rfl, rfl, by with_unfolding_all rfl,
    untitled_show_kept.2 c10Env c10Url "harlows" c10Page c10Cand c10Ev rfl rfl rfl
      (by with_unfolding_all rfl)⟩

/-! ## Claim C1: id recomputability -/

theorem optTruthyB_false_getD {o : Option String} (h : optTruthyB o = false) :
    o.getD "" = "" := by
  cases o with
  | none => rfl
  | some s =>
    simp only [optTruthyB, ne_eq, decide_not, Bool.not_eq_false', decide_eq_true_eq] at h
    simp [h]

theorem buildId_congr_date (s : String) (u : Option String) (n : String)
    {d d' : Option String} (h : d.getD "" = d'.getD "") :
    buildId s u n d = buildId s u n d' := by
  rw [buildId, buildId, h]

/-- Step 6 either leaves the date alone or (when the date was falsy)
replaces it with the free-text extraction. -/
theorem dtBackfillStage_date (env : Env) (pd : PageData) (ev : Event) :
    (dtBackfillStage env pd ev).localDate = ev.localDate ∨
    (optTruthyB ev.localDate = false ∧
      (dtBackfillStage env pd ev).localDate =
        (extractDatetimeFromText env.today pd.text).1) := by
  rw [dtBackfillStage]
  by_cases hd : optTruthyB ev.localDate
  · left
    by_cases ht : optTruthyB ev.localTime
    · simp [hd, ht]
    · simp [hd, ht]
  · right
    refine ⟨by simp [hd], ?_⟩
    by_cases ht : optTruthyB ev.localTime
    · simp [hd, ht]
    · simp [hd, ht]

/-- C1 (amended): `buildId` is a pure function in the embedding, and
`id = buildId(source, url, name, localDate)` holds for every manual event
without an explicit truthy `id`, and for every scraped event provided the
free-text pass finds no date on the page (otherwise a date backfilled after
the id was computed goes unrecorded in it) and the page has no ticket links
(otherwise the url is replaced after the id was computed). -/
theorem id_recomputable :
    (∀ (env : Env) (url source : String) (pd : PageData) (ev : Event),
      env.fetch url = some pd →
      scrapeEventPage env url source = .ok (some ev) →
      (extractDatetimeFromText env.today pd.text).1 = Option.none →
      pageTicketLinks pd url = [] →
      ev.id = buildId ev.source ev.url ev.name ev.localDate) ∧
    (∀ (entry : PyVal) (ev : Event), entryToEvent entry = .ok (some ev) →
      pyTruthy (pyGet entry "id") = false →
      ev.id = buildId ev.source ev.url ev.name ev.localDate) := by
  constructor
  · intro env url source pd ev hf h hx htl
    obtain ⟨pd', ev0, ev1, hf', hcon, hresc, heq⟩ := scrapeEventPage_inv h
    rw [hf] at hf'
    injection hf' with hpd
    subst hpd
    have h0 : ev0.id = buildId source ev0.url ev0.name ev0.localDate ∧ ev0.source = source := by
      rcases constructEvent_inv hcon with ⟨cand, _, hnorm⟩ | ⟨_, title, _, hev0⟩
      · obtain ⟨name, url', dp, vn, st, ci, sta, po, _, _, _, hev0⟩ := normalizeEvent_inv hnorm
        subst hev0
        constructor
        · simp only [mkNormalizedEvent]
        · simp only [mkNormalizedEvent]
      · subst hev0
        constructor
        · simp only [mkFreeTextEvent]
        · simp only [mkFreeTextEvent]
    obtain ⟨_, _, _, _, _, _, _, _, hs1, hid1⟩ := rescueTitle_fields hresc
    have h1 : ev1.id = buildId source ev1.url ev1.name ev1.localDate := hid1 h0.1
    have hs1' : ev1.source = source := by
      rw [hs1]
      exact h0.2
    obtain ⟨im, him⟩ := imageStage_shape pd ev1
    obtain ⟨d, t, dB, tB, hdt, _, _, _⟩ := dtBackfillStage_inv env pd (imageStage pd ev1)
    obtain ⟨u, p, q, c, hps, hpd3⟩ := priceStage_shape env pd url
      (dtBackfillStage env pd (imageStage pd ev1))
    obtain ⟨p2, q2, hzs, _⟩ := zeroFixStage_shape pd
      (priceStage env pd url (dtBackfillStage env pd (imageStage pd ev1)))
    have hu : u = ev1.url := by
      rcases hpd3 with ⟨hu', _⟩ | ⟨hu', _⟩ | ⟨hne, _⟩
      · rw [hu', hdt, him]
      · rw [hu', hdt, him]
      · exact absurd htl hne
    have hdate := dtBackfillStage_date env pd (imageStage pd ev1)
    rw [hdt] at hdate
    have hdate' : d = (imageStage pd ev1).localDate ∨
        (optTruthyB (imageStage pd ev1).localDate = false ∧
          d = (extractDatetimeFromText env.today pd.text).1) := hdate
    rw [heq, hzs, hps, hdt, him]
    show ev1.id = buildId ev1.source u ev1.name d
    rw [hs1', hu, h1]
    rcases hdate' with hdd | ⟨hfalsy, hdd⟩
    · rw [hdd, him]
    · rw [hdd, hx]
      apply buildId_congr_date
      have hf2 : optTruthyB ev1.localDate = false := by
        rw [him] at hfalsy
        exact hfalsy
      rw [optTruthyB_false_getD hf2]
      rfl
  · intro entry ev h hid
    obtain ⟨name, url, _, _, _, hev⟩ := entryToEvent_inv h
    subst hev
    simp only [mkManualEvent, hid, Bool.false_eq_true, if_false]

set_option maxRecDepth 1000000 in
set_option maxHeartbeats 8000000 in
/-- C1 (counterexample): on `c1Page` the id is computed while `localDate` is
still null, the date is then backfilled from the page text, and the id is
never refreshed — the resulting event's `id` differs from
`buildId(source, url, name, localDate)` recomputed from its own fields. -/
theorem id_recomputable_cex :
    Except.map (Option.map (fun ev =>
        (ev.id, buildId ev.source ev.url ev.name ev.localDate, ev.localDate)))
        (scrapeEventPage c1Env c1Url "harlows") =
      .ok (some
        (buildId "harlows" (some "https://harlows.com/event/mystery-night") "Mystery Night" Option.none,
         buildId "harlows" (some "https://harlows.com/event/mystery-night") "Mystery Night" (some "2025-03-14"),
         some "2025-03-14")) ∧
    buildId "harlows" (some "https://harlows.com/event/mystery-night") "Mystery Night" Option.none ≠
      buildId "harlows" (some "https://harlows.com/event/mystery-night") "Mystery Night" (some "2025-03-14") := by
  constructor
  · with_unfolding_all rfl
  · decide

set_option maxRecDepth 1000000 in
set_option maxHeartbeats 8000000 in
theorem id_recomputable_witness :
    c1WitEnv.fetch c1WitUrl = some c1WitPage ∧
    (extractDatetimeFromText c1WitEnv.today c1WitPage.text).1 = Option.none ∧
    pageTicketLinks c1WitPage c1WitUrl = [] ∧
    scrapeEventPage c1WitEnv c1WitUrl "harlows" = .ok (some c1WitEv) ∧
    c1WitEv.id = buildId c1WitEv.source c1WitEv.url c1WitEv.name c1WitEv.localDate :=
  ⟨rfl, rfl, rfl, by with_unfolding_all rfl,
    id_recomputable.1 c1WitEnv c1WitUrl "harlows" c1WitPage c1WitEv rfl
      (by with_unfolding_all rfl) rfl rfl⟩

/-! ## Claim C4: canonical urls -/

theorem dropWhile_dropWhile (p : Char → Bool) (l : List Char) :
    (l.dropWhile p).dropWhile p = l.dropWhile p := by
  induction l with
  | nil => rfl
  | cons c rest ih =>
    by_cases h : p c
    · simp [List.dropWhile_cons, h, ih]
    · simp [List.dropWhile_cons, h]

theorem rstripL_idem (cs l : List Char) : rstripL cs (rstripL cs l) = rstripL cs l := by
  unfold rstripL
  rw [List.reverse_reverse, dropWhile_dropWhile]

theorem mem_rstripL {a : Char} {cs l : List Char} (h : a ∈ rstripL cs l) : a ∈ l := by
  unfold rstripL at h
  rw [List.mem_reverse] at h
  rw [← List.mem_reverse]
  exact (List.dropWhile_sublist _).mem h

theorem takeWhile_eq_self {p : Char → Bool} {l : List Char}
    (h : ∀ a ∈ l, p a = true) : l.takeWhile p = l := by
  induction l with
  | nil => rfl
  | cons c rest ih =>
    rw [List.takeWhile_cons, h c (List.mem_cons_self c rest)]
    show c :: List.takeWhile p rest = c :: rest
    exact congrArg (c :: ·) (ih (fun a ha => h a (List.mem_cons_of_mem c ha)))

theorem canonicalizeStr_idem (s : String) :
    canonicalizeStr (canonicalizeStr s) = canonicalizeStr s := by
  unfold canonicalizeStr
  show String.mk (rstripL ['/']
    ((((rstripL ['/'] ((s.data.takeWhile (· ≠ '#')).takeWhile (· ≠ '?'))).takeWhile
      (· ≠ '#')).takeWhile (· ≠ '?')))) = _
  have h1 : (rstripL ['/'] ((s.data.takeWhile (· ≠ '#')).takeWhile (· ≠ '?'))).takeWhile
      (· ≠ '#') = rstripL ['/'] ((s.data.takeWhile (· ≠ '#')).takeWhile (· ≠ '?')) := by
    refine takeWhile_eq_self (fun a ha => ?_)
    have ha1 := mem_rstripL ha
    have ha2 := (List.takeWhile_sublist (· ≠ '?')).mem ha1
    have := List.mem_takeWhile_imp ha2
    exact this
  rw [h1]
  have h2 : (rstripL ['/'] ((s.data.takeWhile (· ≠ '#')).takeWhile (· ≠ '?'))).takeWhile
      (· ≠ '?') = rstripL ['/'] ((s.data.takeWhile (· ≠ '#')).takeWhile (· ≠ '?')) := by
    refine takeWhile_eq_self (fun a ha => ?_)
    have ha0 := mem_rstripL ha
    have := List.mem_takeWhile_imp ha0
    exact this
  rw [h2, rstripL_idem]

/-- The canonicalizer's loose-value wrapper only ever returns `none` or a
canonicalized string. -/
theorem canonicalizePy_shape {v : PyVal} {u : Option String}
    (h : canonicalizePy v = .ok u) :
    u = Option.none ∨ ∃ s, u = some (canonicalizeStr s) := by
  cases v with
  | str s =>
    injection h with h'
    exact Or.inr ⟨s, h'.symm⟩
  | none =>
    have h' : (Except.ok Option.none : Except Unit (Option String)) = .ok u := h
    injection h' with h''
    exact Or.inl h''.symm
  | bool b =>
    have h' : (if pyTruthy (.bool b) then (Except.error () : Except Unit (Option String))
        else .ok Option.none) = .ok u := h
    by_cases hb : pyTruthy (.bool b)
    · rw [if_pos hb] at h'
      exact Except.noConfusion h'
    · rw [if_neg hb] at h'
      injection h' with h''
      exact Or.inl h''.symm
  | num q =>
    have h' : (if pyTruthy (.num q) then (Except.error () : Except Unit (Option String))
        else .ok Option.none) = .ok u := h
    by_cases hb : pyTruthy (.num q)
    · rw [if_pos hb] at h'
      exact Except.noConfusion h'
    · rw [if_neg hb] at h'
      injection h' with h''
      exact Or.inl h''.symm
  | list xs =>
    have h' : (if pyTruthy (.list xs) then (Except.error () : Except Unit (Option String))
        else .ok Option.none) = .ok u := h
    by_cases hb : pyTruthy (.list xs)
    · rw [if_pos hb] at h'
      exact Except.noConfusion h'
    · rw [if_neg hb] at h'
      injection h' with h''
      exact Or.inl h''.symm
  | dict kvs =>
    have h' : (if pyTruthy (.dict kvs) then (Except.error () : Except Unit (Option String))
        else .ok Option.none) = .ok u := h
    by_cases hb : pyTruthy (.dict kvs)
    · rw [if_pos hb] at h'
      exact Except.noConfusion h'
    · rw [if_neg hb] at h'
      injection h' with h''
      exact Or.inl h''.symm

/-- C4 (amended): `_canonicalize_url` is idempotent, and every non-null
event url is a fixed point of it for manual events and for scraped events
whose page offers no ticket links; a url substituted from a discovered
ticket link is resolved but *not* canonicalized, so query strings survive
there. -/
theorem url_canonical :
    (∀ s, canonicalizeStr (canonicalizeStr s) = canonicalizeStr s) ∧
    (∀ (env : Env) (url source : String) (pd : PageData) (ev : Event),
      env.fetch url = some pd →
      scrapeEventPage env url source = .ok (some ev) →
      pageTicketLinks pd url = [] →
      ∀ s, ev.url = some s → canonicalizeStr s = s) ∧
    (∀ (entry : PyVal) (ev : Event), entryToEvent entry = .ok (some ev) →
      ∀ s, ev.url = some s → canonicalizeStr s = s) := by
  refine ⟨canonicalizeStr_idem, ?_, ?_⟩
  · intro env url source pd ev hf h htl s hs
    obtain ⟨pd', ev0, ev1, hf', hcon, hresc, heq⟩ := scrapeEventPage_inv h
    rw [hf] at hf'
    injection hf' with hpd
    subst hpd
    have h0 : ev0.url = Option.none ∨ ∃ s0, ev0.url = some (canonicalizeStr s0) := by
      rcases constructEvent_inv hcon with ⟨cand, _, hnorm⟩ | ⟨_, title, _, hev0⟩
      · obtain ⟨name, url', dp, vn, st, ci, sta, po, _, hcu, _, hev0⟩ := normalizeEvent_inv hnorm
        have hproj : ev0.url = url' := by
          rw [hev0]
          simp only [mkNormalizedEvent]
        rw [hproj]
        exact canonicalizePy_shape hcu
      · subst hev0
        exact Or.inr ⟨url, rfl⟩
    obtain ⟨hu1, _, _, _, _, _, _, _, _, _⟩ := rescueTitle_fields hresc
    obtain ⟨im, him⟩ := imageStage_shape pd ev1
    obtain ⟨d, t, dB, tB, hdt, _, _, _⟩ := dtBackfillStage_inv env pd (imageStage pd ev1)
    obtain ⟨u, p, q, c, hps, hpd3⟩ := priceStage_shape env pd url
      (dtBackfillStage env pd (imageStage pd ev1))
    obtain ⟨p2, q2, hzs, _⟩ := zeroFixStage_shape pd
      (priceStage env pd url (dtBackfillStage env pd (imageStage pd ev1)))
    have hu : u = ev1.url := by
      rcases hpd3 with ⟨hu', _⟩ | ⟨hu', _⟩ | ⟨hne, _⟩
      · rw [hu', hdt, him]
      · rw [hu', hdt, him]
      · exact absurd htl hne
    rw [heq, hzs, hps] at hs
    have hs' : u = some s := hs
    rw [hu, hu1] at hs'
    rcases h0 with hn | ⟨s0, hc⟩
    · rw [hn] at hs'
      exact Option.noConfusion hs'
    · rw [hc] at hs'
      injection hs' with hss
      rw [← hss]
      exact canonicalizeStr_idem s0
  · intro entry ev h s hs
    obtain ⟨name, url, _, _, hcu, hev⟩ := entryToEvent_inv h
    have hproj : ev.url = url := by
      rw [hev]
      simp only [mkManualEvent]
    rw [hproj] at hs
    rcases canonicalizePy_shape hcu with hn | ⟨s0, hc⟩
    · rw [hn] at hs
      exact Option.noConfusion hs
    · rw [hc] at hs
      injection hs with hss
      rw [← hss]
      exact canonicalizeStr_idem s0

set_option maxRecDepth 1000000 in
/-- C4 (counterexample): when the url is replaced by the top-ranked
discovered ticket link, `urljoin` is applied but `_canonicalize_url` is not,
so the returned event keeps the link's query string and its url is not in
canonical form. -/
theorem url_canonical_cex :
    Except.map (Option.map (fun ev => ev.url)) (scrapeEventPage c4Env c4Url "harlows") =
      .ok (some (some "https://www.etix.com/ticket/p/123?pk=1")) ∧
    canonicalizeStr "https://www.etix.com/ticket/p/123?pk=1" ≠
      "https://www.etix.com/ticket/p/123?pk=1" := by
  constructor
  · with_unfolding_all rfl
  · decide

set_option maxRecDepth 1000000 in
theorem url_canonical_witness :
    c1WitEnv.fetch c1WitUrl = some c1WitPage ∧
    pageTicketLinks c1WitPage c1WitUrl = [] ∧
    c1WitEv.url = some "https://harlows.com/event/quiet-night" ∧
    canonicalizeStr "https://harlows.com/event/quiet-night" =
      "https://harlows.com/event/quiet-night" :=
  ⟨rfl, rfl, rfl,
    url_canonical.2.1 c1WitEnv c1WitUrl "harlows" c1WitPage c1WitEv rfl
      (by with_unfolding_all rfl) rfl "https://harlows.com/event/quiet-night" rfl⟩

theorem dv_digitChar (n : Nat) : dvChar (digitChar n) = n % 10 := by
  have h10 : n % 10 < 10 := Nat.mod_lt _ (by norm_num)
  unfold digitChar
  generalize hk : n % 10 = k
  have hk10 : k < 10 := hk ▸ h10
  interval_cases k <;> decide

theorem mkDateChecked_isIso {y m d : Nat} {s : String}
    (h : mkDateChecked y m d = some s) : isIsoDateP s := by
  unfold mkDateChecked at h
  by_cases hv : validDate y m d
  · rw [if_pos hv] at h
    injection h with h'
    exact ⟨y, m, d, hv, h'.symm⟩
  · rw [if_neg hv] at h
    exact Option.noConfusion h

theorem firstSome_mem {α : Type} {l : List (Option α)} {x : α}
    (h : firstSome l = some x) : some x ∈ l := by
  induction l with
  | nil => exact Option.noConfusion h
  | cons o rest ih =>
    cases o with
    | some y =>
      have h' : some y = some x := h
      rw [h']
      exact List.mem_cons_self _ _
    | none =>
      have h' : firstSome rest = some x := h
      exact List.mem_cons_of_mem _ (ih h')

theorem tryYearFmt_isIso {raw : List Char} {f : List FTok} {s : String}
    (h : tryYearFmt raw f = some s) : isIsoDateP s := by
  rw [tryYearFmt] at h
  cases hr : runFmt f raw with
  | none => rw [hr] at h; exact Option.noConfusion h
  | some st =>
    rw [hr] at h
    have h2 : (match st.month, st.day, st.year with
      | some m, some d, some y => mkDateChecked y m d
      | _, _, _ => Option.none) = some s := h
    cases hm : st.month with
    | none => rw [hm] at h2; exact Option.noConfusion h2
    | some m =>
      rw [hm] at h2
      cases hd : st.day with
      | none => rw [hd] at h2; exact Option.noConfusion h2
      | some d =>
        rw [hd] at h2
        cases hy : st.year with
        | none => rw [hy] at h2; exact Option.noConfusion h2
        | some y =>
          rw [hy] at h2
          exact mkDateChecked_isIso h2

theorem tryNoYearFmt_isIso {today : Nat × Nat × Nat} {raw : List Char} {f : List FTok}
    {s : String} (h : tryNoYearFmt today raw f = some s) : isIsoDateP s := by
  rw [tryNoYearFmt] at h
  cases hr : runFmt f raw with
  | none => rw [hr] at h; exact Option.noConfusion h
  | some st =>
    rw [hr] at h
    have h2 : (match st.month, st.day with
      | some m, some d =>
        if !validDate 1900 m d then Option.none
        else if !validDate today.1 m d then Option.none
        else if dateLt (today.1, m, d) today then mkDateChecked (today.1 + 1) m d
        else mkDateChecked today.1 m d
      | _, _ => Option.none) = some s := h
    cases hm : st.month with
    | none => rw [hm] at h2; exact Option.noConfusion h2
    | some m =>
      rw [hm] at h2
      cases hd : st.day with
      | none => rw [hd] at h2; exact Option.noConfusion h2
      | some d =>
        rw [hd] at h2
        have h3 : (if !validDate 1900 m d then Option.none
          else if !validDate today.1 m d then Option.none
          else if dateLt (today.1, m, d) today then mkDateChecked (today.1 + 1) m d
          else mkDateChecked today.1 m d) = some s := h2
        by_cases hv1 : !validDate 1900 m d
        · rw [if_pos hv1] at h3
          exact Option.noConfusion h3
        · rw [if_neg hv1] at h3
          by_cases hv2 : !validDate today.1 m d
          · rw [if_pos hv2] at h3
            exact Option.noConfusion h3
          · rw [if_neg hv2] at h3
            by_cases hv3 : dateLt (today.1, m, d) today
            · rw [if_pos hv3] at h3
              exact mkDateChecked_isIso h3
            · rw [if_neg hv3] at h3
              exact mkDateChecked_isIso h3

theorem monthRaw_aux (today : Nat × Nat × Nat) (raw2 : List Char) {s : String}
    (h : (match firstSome (yearFormats.map (tryYearFmt raw2)) with
      | some d => some d
      | Option.none => firstSome (noYearFormats.map (tryNoYearFmt today raw2))) = some s) :
    isIsoDateP s := by
  cases hfy : firstSome (yearFormats.map (tryYearFmt raw2)) with
  | some d0 =>
    rw [hfy] at h
    injection h with h'
    obtain ⟨f, _, hf⟩ := List.mem_map.mp (firstSome_mem hfy)
    rw [← h']
    exact tryYearFmt_isIso hf
  | none =>
    rw [hfy] at h
    obtain ⟨f, _, hf⟩ := List.mem_map.mp (firstSome_mem h)
    exact tryNoYearFmt_isIso hf

theorem monthRawToDate_isIso {today : Nat × Nat × Nat} {raw : List Char} {s : String}
    (h : monthRawToDate today raw = some s) : isIsoDateP s :=
  monthRaw_aux today
    (replaceAll "sept".data "sep".data
      (replaceAll "Sept".data "Sep".data (raw.filter (· ≠ '.')))) h

/-- Every date the free-text extractor returns is a valid ISO calendar date
(all branches pass through the `datetime` constructor and `isoformat`). -/
theorem extract_date_isIso {today : Nat × Nat × Nat} {text d : String}
    (h : (extractDatetimeFromText today text).1 = some d) : isIsoDateP d := by
  rw [extractDatetimeFromText] at h
  by_cases hc : (stripWsL (collapseWsL text.data)).isEmpty
  · rw [if_pos hc] at h
    exact Option.noConfusion h
  · rw [if_neg hc] at h
    have h' : (match (match isoDateSearch (stripWsL (collapseWsL text.data)) with
        | some (yy, mm, dd) => mkDateChecked yy mm dd
        | Option.none => Option.none) with
      | some dd => some dd
      | Option.none =>
        match monthSearch (stripWsL (collapseWsL text.data)) with
        | some raw => monthRawToDate today raw
        | Option.none => Option.none) = some d := h
    cases hiso : isoDateSearch (stripWsL (collapseWsL text.data)) with
    | some ymd =>
      obtain ⟨y0, m0, d0⟩ := ymd
      rw [hiso] at h'
      have hA : (match mkDateChecked y0 m0 d0 with
        | some dd => some dd
        | Option.none =>
          match monthSearch (stripWsL (collapseWsL text.data)) with
          | some raw => monthRawToDate today raw
          | Option.none => Option.none) = some d := h'
      cases hmk : mkDateChecked y0 m0 d0 with
      | some dd =>
        rw [hmk] at hA
        injection hA with h2
        exact h2 ▸ mkDateChecked_isIso hmk
      | none =>
        rw [hmk] at hA
        cases hms : monthSearch (stripWsL (collapseWsL text.data)) with
        | some raw =>
          rw [hms] at hA
          exact monthRawToDate_isIso hA
        | none =>
          rw [hms] at hA
          exact Option.noConfusion hA
    | none =>
      rw [hiso] at h'
      have hB : (match monthSearch (stripWsL (collapseWsL text.data)) with
        | some raw => monthRawToDate today raw
        | Option.none => Option.none) = some d := h'
      cases hms : monthSearch (stripWsL (collapseWsL text.data)) with
      | some raw =>
        rw [hms] at hB
        exact monthRawToDate_isIso hB
      | none =>
        rw [hms] at hB
        exact Option.noConfusion hB

/-- Every time the free-text extractor returns is the f-string rendering of
some hour/minute pair — with no range check on either component. -/
theorem extract_time_shape {today : Nat × Nat × Nat} {text t : String}
    (h : (extractDatetimeFromText today text).2 = some t) :
    ∃ h2 mi, t = timeFmt h2 mi := by
  rw [extractDatetimeFromText] at h
  by_cases hc : (stripWsL (collapseWsL text.data)).isEmpty
  · rw [if_pos hc] at h
    exact Option.noConfusion h
  · rw [if_neg hc] at h
    have h' : (match timeSearch (stripWsL (collapseWsL text.data)) with
      | some (hh, mi, pm) =>
        some (String.mk (fmtMin2
          (if pm && hh ≠ 12 then hh + 12 else if !pm && hh = 12 then 0 else hh) ++
          ':' :: fmtMin2 mi))
      | Option.none => Option.none) = some t := h
    cases hts : timeSearch (stripWsL (collapseWsL text.data)) with
    | some tri =>
      obtain ⟨hh, mi, pm⟩ := tri
      rw [hts] at h'
      have hC : some (String.mk (fmtMin2
          (if pm && hh ≠ 12 then hh + 12 else if !pm && hh = 12 then 0 else hh) ++
          ':' :: fmtMin2 mi)) = some t := h'
      injection hC with h2
      exact ⟨_, mi, h2.symm⟩
    | none =>
      rw [hts] at h'
      exact Option.noConfusion h'

theorem parseIsoPy_date {pio : String → Option String × Option String} {v : PyVal}
    {dp : Option String × Option String}
    (h : parseIsoPy pio v = .ok dp)
    (hor : ∀ s d, (pio s).1 = some d → isIsoDateP d) :
    ∀ d, dp.1 = some d → isIsoDateP d := by
  intro d hd
  cases v with
  | str s =>
    have h' : (if s = "" then
        (Except.ok ((Option.none : Option String), (Option.none : Option String)) :
          Except Unit (Option String × Option String))
      else .ok (pio s)) = .ok dp := h
    by_cases hs : s = ""
    · rw [if_pos hs] at h'
      injection h' with h''
      rw [← h''] at hd
      exact Option.noConfusion hd
    · rw [if_neg hs] at h'
      injection h' with h''
      rw [← h''] at hd
      exact hor s d hd
  | none =>
    have h' : (Except.ok ((Option.none : Option String), (Option.none : Option String)) :
        Except Unit (Option String × Option String)) = .ok dp := h
    injection h' with h''
    rw [← h''] at hd
    exact Option.noConfusion hd
  | bool b =>
    have h' : (if pyTruthy (.bool b) then (Except.error () :
        Except Unit (Option String × Option String))
      else .ok (Option.none, Option.none)) = .ok dp := h
    by_cases hb : pyTruthy (.bool b)
    · rw [if_pos hb] at h'
      exact Except.noConfusion h'
    · rw [if_neg hb] at h'
      injection h' with h''
      rw [← h''] at hd
      exact Option.noConfusion hd
  | num q =>
    have h' : (if pyTruthy (.num q) then (Except.error () :
        Except Unit (Option String × Option String))
      else .ok (Option.none, Option.none)) = .ok dp := h
    by_cases hb : pyTruthy (.num q)
    · rw [if_pos hb] at h'
      exact Except.noConfusion h'
    · rw [if_neg hb] at h'
      injection h' with h''
      rw [← h''] at hd
      exact Option.noConfusion hd
  | list xs =>
    have h' : (if pyTruthy (.list xs) then (Except.error () :
        Except Unit (Option String × Option String))
      else .ok (Option.none, Option.none)) = .ok dp := h
    by_cases hb : pyTruthy (.list xs)
    · rw [if_pos hb] at h'
      exact Except.noConfusion h'
    · rw [if_neg hb] at h'
      injection h' with h''
      rw [← h''] at hd
      exact Option.noConfusion hd
  | dict kvs =>
    have h' : (if pyTruthy (.dict kvs) then (Except.error () :
        Except Unit (Option String × Option String))
      else .ok (Option.none, Option.none)) = .ok dp := h
    by_cases hb : pyTruthy (.dict kvs)
    · rw [if_pos hb] at h'
      exact Except.noConfusion h'
    · rw [if_neg hb] at h'
      injection h' with h''
      rw [← h''] at hd
      exact Option.noConfusion hd

/-- C5 (amended): every date emitted by the free-text extractor is a valid
ISO calendar date; its times are only guaranteed to be `f"{h:02d}:{m:02d}"`
renderings with *no* range check (an hour up to 111 can be emitted); a
scraped event's non-null `localDate` is a valid ISO date whenever the
`fromisoformat` collaborator only returns such dates; manual events copy
`localDate`/`localTime` verbatim with no validation at all. -/
theorem dates_times_wellformed :
    (∀ (today : Nat × Nat × Nat) (text d : String),
      (extractDatetimeFromText today text).1 = some d → isIsoDateP d) ∧
    (∀ (today : Nat × Nat × Nat) (text t : String),
      (extractDatetimeFromText today text).2 = some t → ∃ h2 mi, t = timeFmt h2 mi) ∧
    (∀ (env : Env) (url source : String) (pd : PageData) (ev : Event),
      env.fetch url = some pd →
      scrapeEventPage env url source = .ok (some ev) →
      (∀ s d, (env.parseIsoStr s).1 = some d → isIsoDateP d) →
      ∀ d, ev.localDate = some d → isIsoDateP d) ∧
    (∀ (entry : PyVal) (ev : Event), entryToEvent entry = .ok (some ev) →
      ev.localDate = asOptStr (pyGet entry "localDate") ∧
      ev.localTime = asOptStr (pyGet entry "localTime")) := by
  refine ⟨fun today text d h => extract_date_isIso h,
    fun today text t h => extract_time_shape h, ?_, ?_⟩
  · intro env url source pd ev hf h hor d hd
    obtain ⟨pd', ev0, ev1, hf', hcon, hresc, heq⟩ := scrapeEventPage_inv h
    rw [hf] at hf'
    injection hf' with hpd
    subst hpd
    have h0 : ∀ d0, ev0.localDate = some d0 → isIsoDateP d0 := by
      rcases constructEvent_inv hcon with ⟨cand, _, hnorm⟩ | ⟨_, title, _, hev0⟩
      · obtain ⟨name, url', dp, vn, st, ci, sta, po, _, _, hdp, hev0⟩ := normalizeEvent_inv hnorm
        intro d0 hd0
        have hproj : ev0.localDate = dp.1 := by
          rw [hev0]
          simp only [mkNormalizedEvent]
        rw [hproj] at hd0
        exact parseIsoPy_date hdp hor d0 hd0
      · intro d0 hd0
        have hproj : ev0.localDate = (extractDatetimeFromText env.today pd.text).1 := by
          rw [hev0]
          simp only [mkFreeTextEvent]
        rw [hproj] at hd0
        exact extract_date_isIso hd0
    obtain ⟨_, hd1, _, _, _, _, _, _, _, _⟩ := rescueTitle_fields hresc
    obtain ⟨im, him⟩ := imageStage_shape pd ev1
    obtain ⟨dv, tv, dB, tB, hdt, _, _, _⟩ := dtBackfillStage_inv env pd (imageStage pd ev1)
    obtain ⟨u, p, q, c, hps, _⟩ := priceStage_shape env pd url
      (dtBackfillStage env pd (imageStage pd ev1))
    obtain ⟨p2, q2, hzs, _⟩ := zeroFixStage_shape pd
      (priceStage env pd url (dtBackfillStage env pd (imageStage pd ev1)))
    have hdate := dtBackfillStage_date env pd (imageStage pd ev1)
    rw [hdt] at hdate
    have hdate' : dv = (imageStage pd ev1).localDate ∨
        (optTruthyB (imageStage pd ev1).localDate = false ∧
          dv = (extractDatetimeFromText env.today pd.text).1) := hdate
    rw [heq, hzs, hps, hdt] at hd
    have hd' : dv = some d := hd
    rcases hdate' with hdd | ⟨_, hdd⟩
    · rw [hdd, him] at hd'
      have hd'' : ev1.localDate = some d := hd'
      rw [hd1] at hd''
      exact h0 d hd''
    · rw [hdd] at hd'
      exact extract_date_isIso hd'
  · intro entry ev h
    obtain ⟨name, url, _, _, _, hev⟩ := entryToEvent_inv h
    subst hev
    exact ⟨rfl, rfl⟩

set_option maxRecDepth 1000000 in
/-- C5 (counterexample): the time regex accepts any 1–2 digit hour and the
pm rule adds 12 unconditionally, so `doors at 13 pm` yields an event with
`localTime = "25:00"`, which is not a 24-hour `HH:MM` time. -/
theorem dates_times_wellformed_cex :
    Except.map (Option.map (fun ev => ev.localTime)) (scrapeEventPage c5Env c5Url "harlows") =
      .ok (some (some "25:00")) ∧ ¬ isHHMMp "25:00" := by
  refine ⟨by with_unfolding_all rfl, ?_⟩
  rintro ⟨h, mi, hh, hmi, heq⟩
  rw [timeFmt] at heq
  have hdata : "25:00".data = fmtMin2 h ++ ':' :: fmtMin2 mi := congrArg String.data heq
  by_cases h10 : h < 10
  · rw [fmtMin2, if_pos h10] at hdata
    have hdata2 : ['2', '5', ':', '0', '0'] = '0' :: digitChar h :: ':' :: fmtMin2 mi := hdata
    injection hdata2 with h1 _
    exact absurd h1 (by decide)
  · have h100 : h < 100 := by omega
    rw [fmtMin2, if_neg h10, if_pos h100] at hdata
    have hdata2 : ['2', '5', ':', '0', '0'] =
        digitChar (h / 10) :: digitChar h :: ':' :: fmtMin2 mi := hdata
    injection hdata2 with h1 rest1
    injection rest1 with h2 _
    have e1 := congrArg dvChar h1
    have e2 := congrArg dvChar h2
    rw [dv_digitChar] at e1 e2
    have e1n : (2 : Nat) = h / 10 % 10 := e1
    have e2n : (5 : Nat) = h % 10 := e2
    omega

theorem dates_times_wellformed_witness :
    (extractDatetimeFromText (2025, 6, 15) "March 14, 2025").1 = some "2025-03-14" ∧
    isIsoDateP "2025-03-14" :=
  ⟨rfl, dates_times_wellformed.1 (2025, 6, 15) "March 14, 2025" "2025-03-14" rfl⟩

theorem findVal_cons (p : String × Event) (rest : List (String × Event)) (q : String) :
    findVal (p :: rest) q = if p.1 == q then some p.2 else findVal rest q := by
  rw [findVal, List.find?_cons]
  cases hpq : (p.1 == q)
  · simp only [Bool.false_eq_true, if_false]
    rfl
  · simp only [if_true]
    rfl

theorem findVal_map_ne {k : String} {v : Event} {q : String} (m : List (String × Event))
    (hq : q ≠ k) :
    findVal (m.map (fun p => if p.1 == k then (k, v) else p)) q = findVal m q := by
  induction m with
  | nil => rfl
  | cons p rest ih =>
    rw [List.map_cons, findVal_cons, findVal_cons]
    by_cases hp : p.1 = k
    · have hpb : (p.1 == k) = true := beq_iff_eq.mpr hp
      have hkq : (k == q) = false := beq_eq_false_iff_ne.mpr (fun h => hq h.symm)
      have hpq : (p.1 == q) = false :=
        beq_eq_false_iff_ne.mpr (by rw [hp]; exact fun h => hq h.symm)
      rw [hpb]
      simp only [if_true]
      show (if (k == q) = true then some v else
        findVal (rest.map (fun p => if p.1 == k then (k, v) else p)) q) = _
      rw [hkq, hpq]
      simp only [Bool.false_eq_true, if_false]
      exact ih
    · have hpb : (p.1 == k) = false := beq_eq_false_iff_ne.mpr hp
      rw [hpb]
      simp only [Bool.false_eq_true, if_false]
      cases hpq : (p.1 == q)
      · simp only [Bool.false_eq_true, if_false]
        exact ih
      · simp only [if_true]

theorem findVal_map_found {k : String} {v : Event} (m : List (String × Event))
    (hany : m.any (fun p => p.1 == k) = true) :
    findVal (m.map (fun p => if p.1 == k then (k, v) else p)) k = some v := by
  induction m with
  | nil => simp at hany
  | cons p rest ih =>
    rw [List.map_cons, findVal_cons]
    by_cases hp : p.1 = k
    · have hpb : (p.1 == k) = true := beq_iff_eq.mpr hp
      rw [hpb]
      simp only [if_true]
      show (if (k == k) = true then some v else
        findVal (rest.map (fun p => if p.1 == k then (k, v) else p)) k) = some v
      rw [beq_self_eq_true]
      simp only [if_true]
    · have hpb : (p.1 == k) = false := beq_eq_false_iff_ne.mpr hp
      have hrest : rest.any (fun p => p.1 == k) = true := by
        simp only [List.any_cons, hpb, Bool.false_or] at hany
        exact hany
      simp only [hpb, Bool.false_eq_true, if_false]
      exact ih hrest

theorem findVal_append_new {k : String} {v : Event} {q : String} (m : List (String × Event))
    (hnone : m.any (fun p => p.1 == k) = false) :
    findVal (m ++ [(k, v)]) q = if q = k then some v else findVal m q := by
  induction m with
  | nil =>
    rw [List.nil_append, findVal_cons]
    by_cases hq : q = k
    · have hb : (k == q) = true := beq_iff_eq.mpr hq.symm
      show (if (k == q) = true then some v else findVal [] q) = _
      rw [hb, if_pos hq]
      simp only [if_true]
    · have hb : (k == q) = false := beq_eq_false_iff_ne.mpr (fun h => hq h.symm)
      show (if (k == q) = true then some v else findVal [] q) = _
      rw [hb, if_neg hq]
      simp only [Bool.false_eq_true, if_false]
  | cons p rest ih =>
    have hp : (p.1 == k) = false := by
      simp only [List.any_cons] at hnone
      exact (Bool.or_eq_false_iff.mp hnone).1
    have hrest : rest.any (fun p => p.1 == k) = false := by
      simp only [List.any_cons] at hnone
      exact (Bool.or_eq_false_iff.mp hnone).2
    rw [List.cons_append, findVal_cons, findVal_cons]
    cases hpq : (p.1 == q)
    · simp only [Bool.false_eq_true, if_false]
      exact ih hrest
    · have hq : q ≠ k := by
        intro hqk
        rw [hqk, hp] at hpq
        exact Bool.noConfusion hpq
      rw [if_neg hq]
      simp only [if_true]

theorem findVal_dictUpd (m : List (String × Event)) (k : String) (v : Event) (q : String) :
    findVal (dictUpd m k v) q = if q = k then some v else findVal m q := by
  rw [dictUpd]
  cases hany : m.any (fun p => p.1 == k)
  · simp only [Bool.false_eq_true, if_false]
    exact findVal_append_new m hany
  · simp only [if_true]
    by_cases hq : q = k
    · rw [if_pos hq, hq]
      exact findVal_map_found m hany
    · rw [if_neg hq]
      exact findVal_map_ne m hq

theorem foldl_upd_find (events : List Event) (m : List (String × Event)) (k : String) :
    findVal (events.foldl (fun acc e => dictUpd acc (eventKey e) e) m) k =
      match lastWith k events with
      | some r => some r
      | Option.none => findVal m k := by
  induction events generalizing m with
  | nil => rfl
  | cons e rest ih =>
    rw [List.foldl_cons, ih]
    have hstep : lastWith k (e :: rest) = (match lastWith k rest with
      | some r => some r
      | Option.none => if eventKey e = k then some e else Option.none) := rfl
    rw [hstep]
    cases hl : lastWith k rest with
    | some r => rfl
    | none =>
      show findVal (dictUpd m (eventKey e) e) k =
        match (if eventKey e = k then some e else Option.none : Option Event) with
        | some r => some r
        | Option.none => findVal m k
      rw [findVal_dictUpd]
      by_cases hk : k = eventKey e
      · rw [if_pos hk, if_pos hk.symm]
      · rw [if_neg hk, if_neg (fun h => hk h.symm)]

theorem mem_dictUpd {p : String × Event} {m : List (String × Event)} {k : String} {v : Event}
    (h : p ∈ dictUpd m k v) : p ∈ m ∨ p = (k, v) := by
  rw [dictUpd] at h
  cases hany : m.any (fun q => q.1 == k)
  · rw [hany] at h
    simp only [Bool.false_eq_true, if_false] at h
    rcases List.mem_append.mp h with h1 | h1
    · exact Or.inl h1
    · exact Or.inr (List.mem_singleton.mp h1)
  · rw [hany] at h
    simp only [if_true] at h
    obtain ⟨q, hq, hfq⟩ := List.mem_map.mp h
    by_cases hqk : q.1 = k
    · have hb : (q.1 == k) = true := beq_iff_eq.mpr hqk
      rw [hb] at hfq
      simp only [if_true] at hfq
      exact Or.inr hfq.symm
    · have hb : (q.1 == k) = false := beq_eq_false_iff_ne.mpr hqk
      rw [hb] at hfq
      simp only [Bool.false_eq_true, if_false] at hfq
      exact Or.inl (hfq ▸ hq)

theorem foldl_upd_mem (events : List Event) (m : List (String × Event)) :
    ∀ p ∈ events.foldl (fun acc e => dictUpd acc (eventKey e) e) m,
      p ∈ m ∨ (p.1 = eventKey p.2 ∧ p.2 ∈ events) := by
  induction events generalizing m with
  | nil => exact fun p hp => Or.inl hp
  | cons e rest ih =>
    intro p hp
    rw [List.foldl_cons] at hp
    rcases ih (dictUpd m (eventKey e) e) p hp with h1 | ⟨h1, h2⟩
    · rcases mem_dictUpd h1 with h2 | h2
      · exact Or.inl h2
      · refine Or.inr ⟨?_, ?_⟩
        · rw [h2]
        · rw [h2]
          exact List.mem_cons_self _ _
    · exact Or.inr ⟨h1, List.mem_cons_of_mem _ h2⟩

theorem strLeL_cons (a b : Char) (xs ys : List Char) :
    strLeL (a :: xs) (b :: ys) =
      if a.toNat < b.toNat then true
      else if b.toNat < a.toNat then false
      else strLeL xs ys := rfl

theorem strLeL_total (xs ys : List Char) : strLeL xs ys = true ∨ strLeL ys xs = true := by
  induction xs generalizing ys with
  | nil => exact Or.inl rfl
  | cons a xs ih =>
    cases ys with
    | nil => exact Or.inr rfl
    | cons b ys =>
      rw [strLeL_cons, strLeL_cons]
      by_cases hab : a.toNat < b.toNat
      · left
        rw [if_pos hab]
      · by_cases hba : b.toNat < a.toNat
        · right
          rw [if_pos hba]
        · rw [if_neg hab, if_neg hba, if_neg hba, if_neg hab]
          exact ih ys

theorem strLeL_trans {xs ys zs : List Char} (h1 : strLeL xs ys = true)
    (h2 : strLeL ys zs = true) : strLeL xs zs = true := by
  induction xs generalizing ys zs with
  | nil => rfl
  | cons a xs ih =>
    cases ys with
    | nil => exact Bool.noConfusion h1
    | cons b ys =>
      cases zs with
      | nil => exact Bool.noConfusion h2
      | cons c zs =>
        rw [strLeL_cons] at h1 h2 ⊢
        by_cases hab : a.toNat < b.toNat
        · by_cases hbc : b.toNat < c.toNat
          · rw [if_pos (Nat.lt_trans hab hbc)]
          · by_cases hcb : c.toNat < b.toNat
            · rw [if_neg hbc, if_pos hcb] at h2
              exact Bool.noConfusion h2
            · have hbc2 : b.toNat = c.toNat := by omega
              rw [if_pos (hbc2 ▸ hab)]
        · by_cases hba : b.toNat < a.toNat
          · rw [if_neg hab, if_pos hba] at h1
            exact Bool.noConfusion h1
          · have hab2 : a.toNat = b.toNat := by omega
            rw [if_neg hab, if_neg hba] at h1
            by_cases hbc : b.toNat < c.toNat
            · rw [if_pos (hab2 ▸ hbc)]
            · by_cases hcb : c.toNat < b.toNat
              · rw [if_neg hbc, if_pos hcb] at h2
                exact Bool.noConfusion h2
              · rw [if_neg hbc, if_neg hcb] at h2
                have hac : ¬ a.toNat < c.toNat := by omega
                have hca : ¬ c.toNat < a.toNat := by omega
                rw [if_neg hac, if_neg hca]
                exact ih h1 h2

theorem evLe_total (a b : Event) : evLe a b ∨ evLe b a :=
  strLeL_total (sortKeyOf a).data (sortKeyOf b).data

theorem evLe_trans {a b c : Event} (h1 : evLe a b) (h2 : evLe b c) : evLe a c :=
  strLeL_trans h1 h2

theorem insertAsc_head {x : Event} {l : List Event} {b : Event}
    (h : (insertAsc x l).head? = some b) : b = x ∨ l.head? = some b := by
  cases l with
  | nil =>
    injection h with h2
    exact Or.inl h2.symm
  | cons y ys =>
    rw [insertAsc] at h
    by_cases hg : pyStrLe (sortKeyOf y) (sortKeyOf x)
    · rw [if_pos hg] at h
      exact Or.inr h
    · rw [if_neg hg] at h
      injection h with h2
      exact Or.inl h2.symm

theorem chain'_insertAsc (x : Event) (l : List Event) (h : List.Chain' evLe l) :
    List.Chain' evLe (insertAsc x l) := by
  induction l with
  | nil => exact List.chain'_singleton x
  | cons y ys ih =>
    rw [insertAsc]
    by_cases hg : pyStrLe (sortKeyOf y) (sortKeyOf x)
    · rw [if_pos hg]
      rw [List.chain'_cons']
      refine ⟨?_, ih h.tail⟩
      intro b hb
      rcases insertAsc_head hb with hbx | hby
      · rw [hbx]
        exact hg
      · rcases ys with _ | ⟨z, zs⟩
        · exact Option.noConfusion hby
        · injection hby with hbz
          rw [← hbz]
          exact (List.chain'_cons.mp h).1
    · rw [if_neg hg]
      rw [List.chain'_cons]
      refine ⟨?_, h⟩
      rcases evLe_total x y with h1 | h1
      · exact h1
      · exact absurd h1 hg

theorem chain'_sortByDate (l : List Event) : List.Chain' evLe (sortByDate l) := by
  rw [sortByDate]
  have haux : ∀ (l2 acc : List Event), List.Chain' evLe acc →
      List.Chain' evLe (l2.foldl (fun acc x => insertAsc x acc) acc) := by
    intro l2
    induction l2 with
    | nil => exact fun acc h => h
    | cons e rest ih =>
      intro acc hacc
      rw [List.foldl_cons]
      exact ih (insertAsc e acc) (chain'_insertAsc e acc hacc)
  exact haux l [] List.chain'_nil

theorem chain'_to_pairwise : ∀ {l : List Event},
    List.Chain' evLe l → List.Pairwise evLe l := by
  intro l
  induction l with
  | nil => exact fun _ => List.Pairwise.nil
  | cons a t ih =>
    intro h
    cases t with
    | nil => exact List.pairwise_singleton evLe a
    | cons b t2 =>
      have hab := (List.chain'_cons.mp h).1
      have hrest := (List.chain'_cons.mp h).2
      have hp := ih hrest
      refine List.Pairwise.cons ?_ hp
      intro c hc
      rcases List.mem_cons.mp hc with hcb | hct
      · rw [hcb]
        exact hab
      · exact evLe_trans hab ((List.pairwise_cons.mp hp).1 c hct)

theorem perm_insertAsc (x : Event) (l : List Event) : List.Perm (insertAsc x l) (x :: l) := by
  induction l with
  | nil => exact List.Perm.refl _
  | cons y ys ih =>
    rw [insertAsc]
    by_cases hg : pyStrLe (sortKeyOf y) (sortKeyOf x)
    · rw [if_pos hg]
      exact (ih.cons y).trans (List.Perm.swap x y ys)
    · rw [if_neg hg]

theorem perm_sortByDate (l : List Event) : List.Perm (sortByDate l) l := by
  rw [sortByDate]
  have haux : ∀ (l2 acc : List Event),
      List.Perm (l2.foldl (fun acc x => insertAsc x acc) acc) (l2 ++ acc) := by
    intro l2
    induction l2 with
    | nil => exact fun acc => List.Perm.refl _
    | cons e rest ih =>
      intro acc
      rw [List.foldl_cons]
      exact (ih (insertAsc e acc)).trans
        ((List.Perm.append_left rest (perm_insertAsc e acc)).trans List.perm_middle)
  have hmain := haux l []
  rw [List.append_nil] at hmain
  exact hmain

/-- C7 (confirmed): the aggregator's dict lookup returns the last-seen event
of each key; every stored entry is keyed by `eventKey` and its value comes
from the input; the output order is pairwise-sorted by the sort key and is a
permutation of the deduplicated values; date-less events carry the
far-future sentinel key `9999-12-31`; `scrape_all_sources` applies exactly
this dedup-and-sort to scraped-plus-manual; and the spec's three-event
example sorts to January, May, then the date-less event. -/
theorem aggregator_dedup_sort :
    (∀ (events : List Event) (k : String),
      findVal (buildUnique events) k = lastWith k events) ∧
    (∀ (events : List Event) (p : String × Event), p ∈ buildUnique events →
      p.1 = eventKey p.2 ∧ p.2 ∈ events) ∧
    (∀ l : List Event, List.Pairwise evLe (sortByDate l)) ∧
    (∀ l : List Event, List.Perm (sortByDate l) l) ∧
    (∀ ev : Event, ev.localDate = Option.none → sortKeyOf ev = "9999-12-31") ∧
    (∀ (scraped : List Event) (payload : Option PyVal) (out : List Event),
      scrapeAllSources scraped payload = .ok out →
      ∃ ms, loadManualEvents payload = .ok ms ∧ out = aggregateCore (scraped ++ ms)) ∧
    aggregateCore [c7May, c7Null, c7Jan] = [c7Jan, c7May, c7Null] := by
  refine ⟨?_, ?_, ?_, ?_, ?_, ?_, ?_⟩
  · intro events k
    rw [buildUnique, foldl_upd_find]
    cases hl : lastWith k events
    · rfl
    · rfl
  · intro events p hp
    rcases foldl_upd_mem events [] p hp with h1 | h1
    · exact absurd h1 (List.not_mem_nil p)
    · exact h1
  · exact fun l => chain'_to_pairwise (chain'_sortByDate l)
  · exact perm_sortByDate
  · intro ev h
    rw [sortKeyOf, h]
  · intro scraped payload out h
    rw [scrapeAllSources] at h
    cases hm : loadManualEvents payload with
    | error e =>
      rw [hm] at h
      exact Except.noConfusion h
    | ok ms =>
      rw [hm] at h
      have h2 : (Except.ok (aggregateCore (scraped ++ ms)) : Except Unit (List Event)) =
        .ok out := h
      injection h2 with h3
      exact ⟨ms, rfl, h3.symm⟩
  · rfl

theorem aggregator_dedup_sort_witness :
    ((eventKey c7Jan, c7Jan) ∈ buildUnique [c7Jan]) ∧
    (eventKey c7Jan, c7Jan).1 = eventKey (eventKey c7Jan, c7Jan).2 ∧
    (eventKey c7Jan, c7Jan).2 ∈ [c7Jan] :=
  ⟨show (eventKey c7Jan, c7Jan) ∈ (eventKey c7Jan, c7Jan) :: [] from List.Mem.head _,
    aggregator_dedup_sort.2.1 [c7Jan] (eventKey c7Jan, c7Jan)
      (show (eventKey c7Jan, c7Jan) ∈ (eventKey c7Jan, c7Jan) :: [] from List.Mem.head _)⟩

/-! ## Claim C8: shape of the discovered links -/

theorem mem_dedupKeepFirstGo {x : String} :
    ∀ {l seen : List String}, x ∈ dedupKeepFirstGo seen l → x ∈ l := by
  intro l
  induction l with
  | nil => intro seen h; exact absurd h (List.not_mem_nil x)
  | cons y rest ih =>
    intro seen h
    rw [dedupKeepFirstGo] at h
    by_cases hs : seen.contains y
    · rw [if_pos hs] at h
      exact List.mem_cons_of_mem y (ih h)
    · rw [if_neg hs] at h
      rcases List.mem_cons.mp h with h1 | h1
      · rw [h1]
        exact List.mem_cons_self y rest
      · exact List.mem_cons_of_mem y (ih h1)

theorem mem_dedupKeepFirst {x : String} {l : List String} (h : x ∈ dedupKeepFirst l) :
    x ∈ l := mem_dedupKeepFirstGo h

theorem tmTryPre_shape {l : List Char} {i : Nat} {pre mm : List Char} {e : Nat}
    (h : tmTryPre l i pre = some (mm, e)) : ∃ b, mm = pre ++ b := by
  have h2 : (if pre.isPrefixOf (l.drop i) then
      (if hasEventSplit ((l.drop (i + pre.length)).take (runLen tmAllowed l (i + pre.length))) then
        some (pre ++ (l.drop (i + pre.length)).take (runLen tmAllowed l (i + pre.length)),
          i + pre.length + runLen tmAllowed l (i + pre.length))
      else Option.none)
    else Option.none) = some (mm, e) := h
  by_cases h3 : pre.isPrefixOf (l.drop i)
  · rw [if_pos h3] at h2
    by_cases h4 : hasEventSplit ((l.drop (i + pre.length)).take (runLen tmAllowed l (i + pre.length)))
    · rw [if_pos h4] at h2
      injection h2 with h5
      refine ⟨(l.drop (i + pre.length)).take (runLen tmAllowed l (i + pre.length)), ?_⟩
      have h6 := congrArg Prod.fst h5
      exact h6.symm
    · rw [if_neg h4] at h2
      exact Option.noConfusion h2
  · rw [if_neg h3] at h2
    exact Option.noConfusion h2

theorem tmMatchAt_shape {l : List Char} {i : Nat} {mm : List Char} {e : Nat}
    (h : tmMatchAt l i = some (mm, e)) :
    (∃ b, mm = "https://www.ticketmaster.com/".data ++ b) ∨
    (∃ b, mm = "http://www.ticketmaster.com/".data ++ b) := by
  rw [tmMatchAt] at h
  cases h1 : tmTryPre l i "https://www.ticketmaster.com/".data with
  | some m =>
    rw [h1] at h
    injection h with h2
    exact Or.inl (tmTryPre_shape (h2 ▸ h1))
  | none =>
    rw [h1] at h
    exact Or.inr (tmTryPre_shape h)

theorem tmScanGo_shape {l : List Char} {m : String} :
    ∀ {fuel i : Nat}, m ∈ tmScanGo l fuel i →
      ∃ b, m = String.mk ("https://www.ticketmaster.com/".data ++ b) ∨
           m = String.mk ("http://www.ticketmaster.com/".data ++ b) := by
  intro fuel
  induction fuel with
  | zero => intro i h; exact absurd h (List.not_mem_nil m)
  | succ f ih =>
    intro i h
    rw [tmScanGo] at h
    by_cases hl : l.length < i
    · rw [if_pos hl] at h
      exact absurd h (List.not_mem_nil m)
    · rw [if_neg hl] at h
      cases hm : tmMatchAt l i with
      | some pr =>
        obtain ⟨mm, e⟩ := pr
        rw [hm] at h
        rcases List.mem_cons.mp h with h1 | h1
        · rcases tmMatchAt_shape hm with ⟨b, hb⟩ | ⟨b, hb⟩
          · exact ⟨b, Or.inl (by rw [h1, hb])⟩
          · exact ⟨b, Or.inr (by rw [h1, hb])⟩
        · exact ih h1
      | none =>
        rw [hm] at h
        exact ih h

theorem tmScan_shape {s m : String} (h : m ∈ tmScan s) :
    ∃ b, m = String.mk ("https://www.ticketmaster.com/".data ++ b) ∨
         m = String.mk ("http://www.ticketmaster.com/".data ++ b) :=
  tmScanGo_shape h

/-- The allow check passes whenever a trusted host hint occurs in the
candidate's lowercased netloc, regardless of the listing host. -/
theorem allowUrl_of_hint {c : String} (b : String)
    (h : TICKET_HOST_HINTS.any
      (fun hint => containsSub hint.data (toLowerL (netlocOf c).data)) = true) :
    allowUrl b c = true := by
  show (String.mk (toLowerL (netlocOf c).data) == String.mk (toLowerL b.data) ||
    TICKET_HOST_HINTS.any
      (fun hint => containsSub hint.data (String.mk (toLowerL (netlocOf c).data)).data)) = true
  have h2 : TICKET_HOST_HINTS.any
      (fun hint => containsSub hint.data (String.mk (toLowerL (netlocOf c).data)).data) = true := h
  rw [h2, Bool.or_true]

theorem urljoin_tm_https (b : String) (t : List Char) :
    urljoin b (String.mk ("https://www.ticketmaster.com/".data ++ t)) =
      String.mk ("https://www.ticketmaster.com/".data ++ t) := rfl

theorem urljoin_tm_http (b : String) (t : List Char) :
    urljoin b (String.mk ("http://www.ticketmaster.com/".data ++ t)) =
      String.mk ("http://www.ticketmaster.com/".data ++ t) := rfl

theorem allowUrl_tm_https (b : String) (t : List Char) :
    allowUrl b (String.mk ("https://www.ticketmaster.com/".data ++ t)) = true :=
  allowUrl_of_hint b rfl

theorem allowUrl_tm_http (b : String) (t : List Char) :
    allowUrl b (String.mk ("http://www.ticketmaster.com/".data ++ t)) = true :=
  allowUrl_of_hint b rfl

/-- C8 (amended): every link the discoverer returns is the
fragment/trailing-slash *normalization* of a candidate that passed
`_looks_like_event_detail_url` and the same-site-or-trusted-host allow check
(pass-4 candidates are Ticketmaster URLs, whose host always passes the
check); the looks-like test is applied before normalization only, so the
returned link itself can fail it. -/
theorem discovered_links_shape :
    ∀ (pd : ListingPage) (listingUrl : String) (pats : List String) (out : String),
      out ∈ discoverEventLinks pd listingUrl pats →
      ∃ cand, out = normalizeLink cand ∧ looksLikeEventDetailUrl cand = true ∧
        allowUrl (netlocOf listingUrl) cand = true := by
  intro pd listingUrl pats out hout
  have hout2 : out ∈ ((
      pd.anchorsResolved.filter (fun h =>
        allowUrl (netlocOf listingUrl) h &&
          pats.any (fun p => containsSub p.data h.data) && looksLikeEventDetailUrl h) ++
      (pats.map (fun p =>
        ((pd.patternMatches p).map (urljoin listingUrl)).filter (fun h =>
          allowUrl (netlocOf listingUrl) h && looksLikeEventDetailUrl h))).flatten ++
      (pats.map (fun p =>
        ((pd.relMatches p).map (urljoin listingUrl)).filter (fun h =>
          allowUrl (netlocOf listingUrl) h && looksLikeEventDetailUrl h))).flatten ++
      ((tmScan pd.decodedHtml).map (urljoin listingUrl)).filter
        looksLikeEventDetailUrl).map normalizeLink) := mem_dedupKeepFirst hout
  obtain ⟨cand, hcmem, hcn⟩ := List.mem_map.mp hout2
  refine ⟨cand, hcn.symm, ?_⟩
  rcases List.mem_append.mp hcmem with h123 | h4
  · rcases List.mem_append.mp h123 with h12 | h3
    · rcases List.mem_append.mp h12 with h1 | h2
      · obtain ⟨_, hcond⟩ := List.mem_filter.mp h1
        rw [Bool.and_eq_true] at hcond
        obtain ⟨hcond1, hlooks⟩ := hcond
        rw [Bool.and_eq_true] at hcond1
        exact ⟨hlooks, hcond1.1⟩
      · obtain ⟨sub, hsubmem, hsub⟩ := List.mem_flatten.mp h2
        obtain ⟨p, _, hp⟩ := List.mem_map.mp hsubmem
        rw [← hp] at hsub
        obtain ⟨_, hcond⟩ := List.mem_filter.mp hsub
        rw [Bool.and_eq_true] at hcond
        exact ⟨hcond.2, hcond.1⟩
    · obtain ⟨sub, hsubmem, hsub⟩ := List.mem_flatten.mp h3
      obtain ⟨p, _, hp⟩ := List.mem_map.mp hsubmem
      rw [← hp] at hsub
      obtain ⟨_, hcond⟩ := List.mem_filter.mp hsub
      rw [Bool.and_eq_true] at hcond
      exact ⟨hcond.2, hcond.1⟩
  · obtain ⟨hcmem4, hlooks⟩ := List.mem_filter.mp h4
    refine ⟨hlooks, ?_⟩
    obtain ⟨mtm, hmtm, hjoin⟩ := List.mem_map.mp hcmem4
    rcases tmScan_shape hmtm with ⟨b, hb | hb⟩
    · rw [← hjoin, hb, urljoin_tm_https]
      exact allowUrl_tm_https (netlocOf listingUrl) b
    · rw [← hjoin, hb, urljoin_tm_http]
      exact allowUrl_tm_http (netlocOf listingUrl) b

/-- C8 (counterexample): the looks-like test runs before the trailing-slash
strip, so the discoverer returns `https://venue.com/events/foo-events`, a
URL that fails `_looks_like_event_detail_url` (it ends in `-events`). -/
theorem discovered_links_shape_cex :
    discoverEventLinks c8Listing "https://venue.com/" ["/events/"] =
      ["https://venue.com/events/foo-events"] ∧
    looksLikeEventDetailUrl "https://venue.com/events/foo-events" = false := by
  constructor
  · rfl
  · decide

theorem discovered_links_shape_witness :
    ("https://venue.com/events/foo-events" ∈
      discoverEventLinks c8Listing "https://venue.com/" ["/events/"]) ∧
    (∃ cand, "https://venue.com/events/foo-events" = normalizeLink cand ∧
      looksLikeEventDetailUrl cand = true ∧
      allowUrl (netlocOf "https://venue.com/") cand = true) :=
  ⟨show "https://venue.com/events/foo-events" ∈
      "https://venue.com/events/foo-events" :: [] from List.Mem.head _,
    discovered_links_shape c8Listing "https://venue.com/" ["/events/"]
      "https://venue.com/events/foo-events"
      (show "https://venue.com/events/foo-events" ∈
        "https://venue.com/events/foo-events" :: [] from List.Mem.head _)⟩

end SacScene
